import Mathlib

set_option autoImplicit false

namespace Plotng

/-! Shallow embedding of plotng's client (src/internal/client.go): the snapshot
store, the directory aggregator, the table reconciler and the selection
tracker, together with proofs about them.  Go maps are embedded as association
lists with unique keys; a map write overwrites the existing entry in place. -/

/-- mapLookup embeds reading a Go map: the value stored at key k, if present. -/
def mapLookup {α : Type} : List (String × α) → String → Option α
  | [], _ => none
  | p :: ps, k => if p.1 == k then some p.2 else mapLookup ps k

/-- mapInsert embeds writing a Go map: overwrite an existing entry in place,
otherwise add a new one. -/
def mapInsert {α : Type} : List (String × α) → String → α → List (String × α)
  | [], k, v => [(k, v)]
  | p :: ps, k, v => if p.1 == k then (k, v) :: ps else p :: mapInsert ps k v

/-- mapDelete embeds deleting a key from a Go map. -/
def mapDelete {α : Type} : List (String × α) → String → List (String × α)
  | [], _ => []
  | p :: ps, k => if p.1 == k then mapDelete ps k else p :: mapDelete ps k

/-- keysOf lists the keys of an embedded map, in storage order. -/
def keysOf {α : Type} (m : List (String × α)) : List String :=
  m.map Prod.fst

@[simp] theorem mapLookup_nil {α : Type} (k : String) :
    mapLookup ([] : List (String × α)) k = none := rfl

theorem mapLookup_cons {α : Type} (p : String × α) (ps : List (String × α)) (k : String) :
    mapLookup (p :: ps) k = if p.1 == k then some p.2 else mapLookup ps k := rfl

@[simp] theorem mapLookup_mapInsert_self {α : Type} (m : List (String × α)) (k : String) (v : α) :
    mapLookup (mapInsert m k v) k = some v := by
  induction m with
  | nil => simp [mapInsert, mapLookup]
  | cons p ps ih =>
    by_cases h : p.1 = k
    · simp [mapInsert, mapLookup, h]
    · simp only [mapInsert, mapLookup, beq_iff_eq, h, if_false, ih]

theorem mapLookup_mapInsert_ne {α : Type} (m : List (String × α)) (k k' : String) (v : α)
    (hne : k' ≠ k) : mapLookup (mapInsert m k v) k' = mapLookup m k' := by
  have hne2 : k ≠ k' := hne.symm
  induction m with
  | nil => simp [mapInsert, mapLookup, hne2]
  | cons p ps ih =>
    by_cases h : p.1 = k
    · subst h
      simp [mapInsert, mapLookup, hne2]
    · simp only [mapInsert, mapLookup, beq_iff_eq, h, if_false, ih]

@[simp] theorem keysOf_nil {α : Type} : keysOf ([] : List (String × α)) = [] := rfl

@[simp] theorem keysOf_cons {α : Type} (p : String × α) (ps : List (String × α)) :
    keysOf (p :: ps) = p.1 :: keysOf ps := rfl

theorem mem_keysOf_mapInsert {α : Type} (m : List (String × α)) (k k' : String) (v : α) :
    k' ∈ keysOf (mapInsert m k v) ↔ k' ∈ keysOf m ∨ k' = k := by
  induction m with
  | nil => simp [mapInsert]
  | cons p ps ih =>
    by_cases h : p.1 = k
    · subst h
      simp only [mapInsert, beq_self_eq_true, if_true, keysOf_cons, List.mem_cons]
      tauto
    · simp only [mapInsert, beq_iff_eq, h, if_false, keysOf_cons, List.mem_cons, ih]
      tauto

theorem mapLookup_eq_none_iff {α : Type} (m : List (String × α)) (k : String) :
    mapLookup m k = none ↔ k ∉ keysOf m := by
  induction m with
  | nil => simp
  | cons p ps ih =>
    by_cases h : p.1 = k
    · simp [mapLookup, h]
    · simp only [mapLookup, beq_iff_eq, h, if_false, ih, keysOf_cons, List.mem_cons]
      constructor
      · rintro hk (rfl | hk2)
        · exact h rfl
        · exact hk hk2
      · intro hk
        exact fun hk2 => hk (Or.inr hk2)

theorem mem_of_mem_mapInsert {α : Type} (m : List (String × α)) (k : String) (v : α)
    (x : String × α) (hx : x ∈ mapInsert m k v) : x = (k, v) ∨ x ∈ m := by
  induction m with
  | nil => simpa [mapInsert] using hx
  | cons p ps ih =>
    by_cases h : p.1 = k
    · simp only [mapInsert, h, beq_self_eq_true, if_true, List.mem_cons] at hx
      rcases hx with rfl | hx
      · exact Or.inl rfl
      · exact Or.inr (List.mem_cons_of_mem _ hx)
    · simp only [mapInsert, beq_iff_eq, h, if_false, List.mem_cons] at hx
      rcases hx with rfl | hx
      · exact Or.inr (List.mem_cons_self _ _)
      · rcases ih hx with h2 | h2
        · exact Or.inl h2
        · exact Or.inr (List.mem_cons_of_mem _ h2)

/-! Host-list parsing, from Client.ProcessLoop (client.go lines 40-47). -/

/-- isSpaceGo mirrors the set of code points trimmed by Go's strings.TrimSpace
(Unicode white space). -/
def isSpaceGo (c : Char) : Bool :=
  c == ' ' || c == '\t' || c == '\n' || c == Char.ofNat 0x0B || c == Char.ofNat 0x0C ||
  c == '\r' || c == Char.ofNat 0x85 || c == Char.ofNat 0xA0 || c == Char.ofNat 0x1680 ||
  (0x2000 ≤ c.toNat && c.toNat ≤ 0x200A) || c == Char.ofNat 0x2028 || c == Char.ofNat 0x2029 ||
  c == Char.ofNat 0x202F || c == Char.ofNat 0x205F || c == Char.ofNat 0x3000

/-- trimSpace embeds Go's strings.TrimSpace: drop white space from both ends. -/
def trimSpace (s : String) : String :=
  String.mk (((s.toList.dropWhile isSpaceGo).reverse.dropWhile isSpaceGo).reverse)

/-- processHostList embeds the host-list loop of Client.ProcessLoop: split the
configuration string on commas, trim each element, and append the default port
":8484" when the element holds no colon; elements are appended to the host
slice in order. -/
def processHostList (hostList : String) : List String :=
  (hostList.splitOn ",").foldl
    (fun hosts h0 =>
      let h := trimSpace h0
      let h := if h.toList.contains ':' then h else h ++ ":8484"
      hosts ++ [h]) []

theorem foldl_append_singleton {α β : Type} (f : α → β) (l : List α) (acc : List β) :
    l.foldl (fun hs h0 => hs ++ [f h0]) acc = acc ++ l.map f := by
  induction l generalizing acc with
  | nil => simp
  | cons x xs ih => simp [ih]

/-- C7: the host list is obtained by splitting the configuration string on
commas, trimming white space from each element, and appending the default
port suffix ":8484" to exactly those trimmed elements holding no colon;
elements that already hold a colon are kept unchanged after trimming. -/
theorem processHostList_spec (s : String) :
    processHostList s =
      (s.splitOn ",").map (fun e =>
        if (trimSpace e).toList.contains ':' then trimSpace e
        else trimSpace e ++ ":8484") := by
  unfold processHostList
  exact foldl_append_singleton _ _ _

/-! Plot-id shortening, from shortenPlotId (client.go lines 267-272). -/

/-- shortenPlotId embeds shortenPlotId: ids shorter than 20 characters display
as empty; longer ids display as the first 10 characters, "...", and the last
10 characters. -/
def shortenPlotId (id : String) : String :=
  if id.length < 20 then ""
  else String.mk (id.toList.take 10) ++ "..." ++ String.mk (id.toList.drop (id.length - 10))

/-- C8: for every job id, the shortening function returns the empty string when
the id has fewer than 20 characters, and otherwise a 23-character form made of
the first 10 characters, the separator "...", and the last 10 characters. -/
theorem shortenPlotId_spec (id : String) :
    (id.length < 20 → shortenPlotId id = "") ∧
    (20 ≤ id.length →
      shortenPlotId id =
        String.mk (id.toList.take 10) ++ "..." ++ String.mk (id.toList.drop (id.length - 10)) ∧
      (shortenPlotId id).length = 23) := by
  constructor
  · intro h
    simp [shortenPlotId, h]
  · intro h
    have hlt : ¬ id.length < 20 := not_lt.mpr h
    have hlen : id.toList.length = id.length := rfl
    refine ⟨by unfold shortenPlotId; rw [if_neg hlt], ?_⟩
    have h1 : (String.mk (id.toList.take 10)).length = 10 := by
      show (id.toList.take 10).length = 10
      rw [List.length_take, hlen]
      omega
    have h2 : (String.mk (id.toList.drop (id.length - 10))).length = 10 := by
      show (id.toList.drop (id.length - 10)).length = 10
      rw [List.length_drop, hlen]
      omega
    unfold shortenPlotId
    rw [if_neg hlt, String.length_append, String.length_append, h1, h2]
    decide

/-- C8 witness: a concrete 32-character id evaluates as the theorem states. -/
theorem shortenPlotId_spec_witness :
    (shortenPlotId "0123456789abcdef0123456789abcdef").length = 23 :=
  ((shortenPlotId_spec "0123456789abcdef0123456789abcdef").2 (by decide)).2

/-! Table reconciliation, the pattern shared by drawActivePlotsTable,
drawPlotDirsTable, drawDestDirsTable, drawArchivedPlotsTable and
drawHostsTable (client.go lines 325-348, 438-456, 521-539, 592-627, 663-679). -/

/-- Modelled from the spec: widget.SortedTable is not under src/; the spec
describes it as "a keyed, sortable row store", so SetRowData upserts a row
(insert if new, overwrite fields if existing). -/
def setRowData {α : Type} (t : List (String × α)) (k : String) (v : α) : List (String × α) :=
  mapInsert t k v

/-- Modelled from the spec: widget.SortedTable is not under src/; ClearRowData
removes the row stored under a key. -/
def clearRowData {α : Type} (t : List (String × α)) (k : String) : List (String × α) :=
  mapDelete t k

/-- upsertStep is the body of the reconciliation upsert loop: remove the new
row's key from the to-delete set and upsert the row. -/
def upsertStep {α : Type} (st : List String × List (String × α)) (p : String × α) :
    List String × List (String × α) :=
  (st.1.filter (fun k => !(k == p.1)), setRowData st.2 p.1 p.2)

/-- reconcile embeds one reconciliation pass: collect the table's keys as the
to-delete set, upsert every new row while removing its key from the set, then
clear every key left in the set. -/
def reconcile {α : Type} (table newRows : List (String × α)) : List (String × α) :=
  let st := newRows.foldl upsertStep (keysOf table, table)
  st.1.foldl (fun t k => clearRowData t k) st.2

/-- reconcileInserts counts, in one reconciliation pass, the SetRowData calls
whose key is absent from the table at call time (row insertions). -/
def reconcileInserts {α : Type} (table newRows : List (String × α)) : Nat :=
  (newRows.foldl
    (fun (st : Nat × List (String × α)) p =>
      ((if p.1 ∈ keysOf st.2 then st.1 else st.1 + 1), setRowData st.2 p.1 p.2))
    (0, table)).1

/-- reconcileDeletes counts, in one reconciliation pass, the ClearRowData
calls: the keys left in the to-delete set after the upsert loop. -/
def reconcileDeletes {α : Type} (table newRows : List (String × α)) : Nat :=
  (newRows.foldl upsertStep (keysOf table, table)).1.length

/-- upsertAll is the table component of the upsert loop. -/
def upsertAll {α : Type} (t rows : List (String × α)) : List (String × α) :=
  rows.foldl (fun t p => setRowData t p.1 p.2) t

theorem upsert_foldl_snd {α : Type} (rows : List (String × α)) (ks : List String)
    (t : List (String × α)) :
    (rows.foldl upsertStep (ks, t)).2 = upsertAll t rows := by
  induction rows generalizing ks t with
  | nil => rfl
  | cons p rest ih => simp [upsertStep, upsertAll, List.foldl_cons, ih]

theorem upsert_foldl_fst_mem {α : Type} (rows : List (String × α)) (ks : List String)
    (t : List (String × α)) (k : String) :
    k ∈ (rows.foldl upsertStep (ks, t)).1 ↔ k ∈ ks ∧ ∀ p ∈ rows, k ≠ p.1 := by
  induction rows generalizing ks t with
  | nil => simp
  | cons p rest ih =>
    simp only [List.foldl_cons, upsertStep, ih, List.mem_filter, List.mem_cons]
    constructor
    · rintro ⟨⟨hks, hne⟩, hrest⟩
      refine ⟨hks, ?_⟩
      rintro q (rfl | hq)
      · simpa using hne
      · exact hrest q hq
    · rintro ⟨hks, hall⟩
      refine ⟨⟨hks, ?_⟩, fun q hq => hall q (Or.inr hq)⟩
      simpa using hall p (Or.inl rfl)

theorem mem_keysOf_mapDelete {α : Type} (m : List (String × α)) (k k' : String) :
    k' ∈ keysOf (mapDelete m k) ↔ k' ∈ keysOf m ∧ k' ≠ k := by
  induction m with
  | nil => simp [mapDelete]
  | cons p ps ih =>
    by_cases h : p.1 = k
    · subst h
      simp only [mapDelete, beq_self_eq_true, if_true, ih, keysOf_cons, List.mem_cons]
      tauto
    · simp only [mapDelete, beq_iff_eq, h, if_false, keysOf_cons, List.mem_cons, ih]
      constructor
      · rintro (rfl | ⟨hm, hne⟩)
        · exact ⟨Or.inl rfl, fun hk => h hk⟩
        · exact ⟨Or.inr hm, hne⟩
      · rintro ⟨rfl | hm, hne⟩
        · exact Or.inl rfl
        · exact Or.inr ⟨hm, hne⟩

theorem mapLookup_mapDelete_ne {α : Type} (m : List (String × α)) (k k' : String)
    (hne : k' ≠ k) : mapLookup (mapDelete m k) k' = mapLookup m k' := by
  induction m with
  | nil => simp [mapDelete]
  | cons p ps ih =>
    by_cases h : p.1 = k
    · subst h
      have h2 : ¬ p.1 = k' := fun hk => hne hk.symm
      simp [mapDelete, mapLookup, h2, ih]
    · simp only [mapDelete, beq_iff_eq, h, if_false, mapLookup_cons, ih]

theorem mem_keysOf_of_mem {α : Type} {rows : List (String × α)} {p : String × α}
    (hp : p ∈ rows) : p.1 ∈ keysOf rows :=
  List.mem_map_of_mem Prod.fst hp

theorem mem_keysOf_iff {α : Type} (rows : List (String × α)) (k : String) :
    k ∈ keysOf rows ↔ ∃ p ∈ rows, p.1 = k := by
  simp [keysOf, List.mem_map]

theorem clear_foldl_mem {α : Type} (ks : List String) (t : List (String × α)) (k : String) :
    k ∈ keysOf (ks.foldl (fun t k => clearRowData t k) t) ↔ k ∈ keysOf t ∧ k ∉ ks := by
  induction ks generalizing t with
  | nil => simp
  | cons x xs ih =>
    rw [List.foldl_cons, ih]
    simp only [clearRowData, mem_keysOf_mapDelete, List.mem_cons]
    tauto

theorem clear_foldl_lookup {α : Type} (ks : List String) (t : List (String × α)) (k : String)
    (hk : k ∉ ks) : mapLookup (ks.foldl (fun t k => clearRowData t k) t) k = mapLookup t k := by
  induction ks generalizing t with
  | nil => rfl
  | cons x xs ih =>
    simp only [List.mem_cons, not_or] at hk
    rw [List.foldl_cons, ih _ hk.2]
    exact mapLookup_mapDelete_ne _ _ _ hk.1

theorem upsertAll_keys_mem {α : Type} (rows t : List (String × α)) (k : String) :
    k ∈ keysOf (upsertAll t rows) ↔ k ∈ keysOf t ∨ k ∈ keysOf rows := by
  induction rows generalizing t with
  | nil => simp [upsertAll]
  | cons p rest ih =>
    simp only [upsertAll, List.foldl_cons, keysOf_cons, List.mem_cons]
    rw [show (List.foldl (fun t p => setRowData t p.1 p.2)
      (setRowData t p.1 p.2) rest) = upsertAll (setRowData t p.1 p.2) rest from rfl, ih]
    simp only [setRowData, mem_keysOf_mapInsert]
    tauto

theorem upsertAll_lookup_not_mem {α : Type} (rows t : List (String × α)) (k : String)
    (hk : k ∉ keysOf rows) : mapLookup (upsertAll t rows) k = mapLookup t k := by
  induction rows generalizing t with
  | nil => rfl
  | cons p rest ih =>
    simp only [keysOf_cons, List.mem_cons, not_or] at hk
    simp only [upsertAll, List.foldl_cons]
    rw [show (List.foldl (fun t p => setRowData t p.1 p.2)
      (setRowData t p.1 p.2) rest) = upsertAll (setRowData t p.1 p.2) rest from rfl]
    rw [ih _ hk.2, setRowData, mapLookup_mapInsert_ne _ _ _ _ hk.1]

theorem upsertAll_lookup {α : Type} (rows t : List (String × α)) (k : String) (v : α)
    (hnd : (keysOf rows).Nodup) (hmem : (k, v) ∈ rows) :
    mapLookup (upsertAll t rows) k = some v := by
  induction rows generalizing t with
  | nil => cases hmem
  | cons p rest ih =>
    simp only [keysOf_cons, List.nodup_cons] at hnd
    simp only [upsertAll, List.foldl_cons]
    rw [show (List.foldl (fun t p => setRowData t p.1 p.2)
      (setRowData t p.1 p.2) rest) = upsertAll (setRowData t p.1 p.2) rest from rfl]
    rcases List.mem_cons.mp hmem with rfl | hmem2
    · rw [upsertAll_lookup_not_mem _ _ _ hnd.1]
      exact mapLookup_mapInsert_self _ _ _
    · exact ih _ hnd.2 hmem2

theorem mem_keysOf_reconcile {α : Type} (table rows : List (String × α)) (k : String) :
    k ∈ keysOf (reconcile table rows) ↔ k ∈ keysOf rows := by
  unfold reconcile
  rw [clear_foldl_mem, upsert_foldl_snd, upsertAll_keys_mem, upsert_foldl_fst_mem]
  constructor
  · rintro ⟨ht | hr, hdel⟩
    · by_contra hk
      apply hdel
      refine ⟨ht, fun p hp hkp => hk ?_⟩
      rw [hkp]
      exact mem_keysOf_of_mem hp
    · exact hr
  · intro hr
    refine ⟨Or.inr hr, ?_⟩
    rintro ⟨_, hall⟩
    rcases (mem_keysOf_iff rows k).mp hr with ⟨p, hp, rfl⟩
    exact hall p hp rfl

theorem reconcile_lookup {α : Type} (table rows : List (String × α)) (k : String) (v : α)
    (hnd : (keysOf rows).Nodup) (hmem : (k, v) ∈ rows) :
    mapLookup (reconcile table rows) k = some v := by
  have hk : k ∈ keysOf rows := mem_keysOf_of_mem hmem
  unfold reconcile
  rw [clear_foldl_lookup, upsert_foldl_snd]
  · exact upsertAll_lookup _ _ _ _ hnd hmem
  · rw [upsert_foldl_fst_mem]
    rintro ⟨_, hall⟩
    rcases (mem_keysOf_iff rows k).mp hk with ⟨p, hp, rfl⟩
    exact hall p hp rfl

/-- C5: one reconciliation pass leaves the table with exactly the keys of the
new row set: keys absent from the new set are deleted, new keys are inserted,
and a key present in both ends up mapped to its new row data. -/
theorem reconcile_spec {α : Type} (table newRows : List (String × α)) :
    (∀ k, k ∈ keysOf (reconcile table newRows) ↔ k ∈ keysOf newRows) ∧
    ((keysOf newRows).Nodup →
      ∀ k v, (k, v) ∈ newRows → mapLookup (reconcile table newRows) k = some v) :=
  ⟨fun k => mem_keysOf_reconcile table newRows k,
   fun hnd k v hmem => reconcile_lookup table newRows k v hnd hmem⟩

/-- C5 witness: a table keyed A,B,C reconciled against rows keyed B,C,D ends
with exactly B,C,D, with D freshly inserted and B,C overwritten. -/
theorem reconcile_spec_witness :
    mapLookup (reconcile [("A", (1 : Nat)), ("B", 2), ("C", 3)]
      [("B", 20), ("C", 30), ("D", 40)]) "D" = some 40 :=
  (reconcile_spec [("A", (1 : Nat)), ("B", 2), ("C", 3)]
      [("B", 20), ("C", 30), ("D", 40)]).2 (by decide) "D" 40 (by decide)

theorem reconcileInserts_of_keys_subset {α : Type} (rows : List (String × α)) :
    ∀ (t : List (String × α)) (n : Nat), (∀ p ∈ rows, p.1 ∈ keysOf t) →
    (rows.foldl
      (fun (st : Nat × List (String × α)) p =>
        ((if p.1 ∈ keysOf st.2 then st.1 else st.1 + 1), setRowData st.2 p.1 p.2))
      (n, t)).1 = n := by
  induction rows with
  | nil => intro t n _; rfl
  | cons p rest ih =>
    intro t n hsub
    have hp : p.1 ∈ keysOf t := hsub p (List.mem_cons_self _ _)
    simp only [List.foldl_cons, hp, if_true]
    exact ih _ n (fun q hq =>
      (mem_keysOf_mapInsert t p.1 q.1 p.2).mpr (Or.inl (hsub q (List.mem_cons_of_mem _ hq))))

/-- C6: reconciliation is idempotent: a second pass with the same row set
performs no insert and no delete on the table produced by the first pass. -/
theorem reconcile_idempotent {α : Type} (table newRows : List (String × α)) :
    reconcileInserts (reconcile table newRows) newRows = 0 ∧
    reconcileDeletes (reconcile table newRows) newRows = 0 := by
  constructor
  · exact reconcileInserts_of_keys_subset newRows (reconcile table newRows) 0
      (fun p hp => (mem_keysOf_reconcile table newRows p.1).mpr (mem_keysOf_of_mem hp))
  · unfold reconcileDeletes
    rw [List.length_eq_zero, List.eq_nil_iff_forall_not_mem]
    intro k hk
    rw [upsert_foldl_fst_mem] at hk
    rcases hk with ⟨hmem, hall⟩
    rcases (mem_keysOf_iff newRows k).mp ((mem_keysOf_reconcile table newRows k).mp hmem) with
      ⟨p, hp, rfl⟩
    exact hall p hp rfl

/-! Data model.  The Msg and ActivePlot declarations live elsewhere in the
repository (not under src/); their fields are modelled from the spec's data
model and from the field accesses in client.go. -/

/-- Modelled from the spec: the job state enum {Running, Errored, Finished,
Killed}; the PlotRunning, PlotError, PlotFinished and PlotKilled constants
are not under src/. -/
inductive PlotState : Type
  | Running
  | Errored
  | Finished
  | Killed
deriving DecidableEq

/-- Modelled from the spec: the ActivePlot declaration is not under src/; a
Job carries an id, a state, five phase timestamps (index 0 the start, index 4
the completion, zero when not yet reached), a source (plot) directory, a
destination (target) directory, a progress percentage and a log tail. -/
structure ActivePlot : Type where
  Id : String
  State : PlotState
  CurrentPhase : Int
  Phases : List Int
  PlotDir : String
  TargetDir : String
  Progress : Int
  Tail : List String
deriving DecidableEq

/-- Modelled from the spec: ActivePlot.getCurrentPhase is not under src/; the
spec gives a job a currentPhase field in 0..4, which this accessor reads. -/
def ActivePlot.getCurrentPhase (p : ActivePlot) : Int :=
  p.CurrentPhase

/-- Modelled from the spec: ActivePlot.getProgress is not under src/; the
spec gives a job a progressPercent field in 0..100, which this accessor
reads. -/
def ActivePlot.getProgress (p : ActivePlot) : Int :=
  p.Progress

/-- Modelled from the spec: ActivePlot.getPhaseTime is not under src/; it
reads the job's phase timestamp at an index, zero when absent. -/
def ActivePlot.getPhaseTime (p : ActivePlot) (n : Nat) : Int :=
  p.Phases.getD n 0

/-- Modelled from the spec: the Msg declaration is not under src/; a Snapshot
holds a status text, active and archived jobs, and the source (temp) and
destination (target) directory capacity maps. -/
structure Msg : Type where
  Status : String
  Actives : List ActivePlot
  Archived : List ActivePlot
  TempDirs : List (String × Nat)
  TargetDirs : List (String × Nat)
deriving DecidableEq

/-- emptyMsg is the Go zero value of Msg, as created by checkServer for a
failed poll of a host with no record. -/
def emptyMsg : Msg := ⟨"", [], [], [], []⟩

/-- maxUint64 is Go's math.MaxUint64 capacity sentinel. -/
def maxUint64 : Nat := 2 ^ 64 - 1

/-- dirKey is the row key host + "||" + directory used by both aggregators. -/
def dirKey (host dir : String) : String := host ++ "||" ++ dir

theorem mapLookup_mem {α : Type} (m : List (String × α)) (k : String) (v : α)
    (h : mapLookup m k = some v) : (k, v) ∈ m := by
  induction m with
  | nil => cases h
  | cons p ps ih =>
    by_cases hk : p.1 = k
    · subst hk
      simp only [mapLookup_cons, beq_self_eq_true, if_true, Option.some_inj] at h
      subst h
      exact List.mem_cons_self _ _
    · simp only [mapLookup_cons, beq_iff_eq, hk, if_false] at h
      exact List.mem_cons_of_mem _ (ih h)

theorem mapLookup_map_value {α β : Type} (m : List (String × α)) (f : α → β) (k : String) :
    mapLookup (m.map (fun kv => (kv.1, f kv.2))) k = (mapLookup m k).map f := by
  induction m with
  | nil => rfl
  | cons p ps ih =>
    by_cases hk : p.1 = k
    · simp [mapLookup_cons, hk]
    · simp [mapLookup_cons, hk, ih]

/-! Directory aggregation, from Client.makePlotDirsData (client.go lines
391-436) and Client.makeDestDirsData (lines 480-519). -/

/-- plotDirData embeds the plotDirData row struct of client.go. -/
structure plotDirData : Type where
  Host : String
  PlotDir : String
  AvailableBytes : Nat
  AvgPhase1 : Int
  AvgPhase2 : Int
  AvgPhase3 : Int
  AvgPhase4 : Int
  Count : Nat
  Failed : Nat
deriving DecidableEq

/-- seedPlotDirs embeds the first loop of makePlotDirsData for one host: one
entry per advertised temp directory, holding its available bytes. -/
def seedPlotDirs (acc : List (String × plotDirData)) (host : String) (m : Msg) :
    List (String × plotDirData) :=
  m.TempDirs.foldl
    (fun acc d => mapInsert acc (dirKey host d.1) ⟨host, d.1, d.2, 0, 0, 0, 0, 0, 0⟩) acc

/-- orphanPlotDir is the entry makePlotDirsData creates for a directory found
only in archived-job history: the capacity sentinel and zero counters. -/
def orphanPlotDir (host dir : String) : plotDirData :=
  ⟨host, dir, maxUint64, 0, 0, 0, 0, 0, 0⟩

/-- applyArchivedPlotDir embeds the state switch of makePlotDirsData's
archived-job loop: a Finished job accumulates the four phase-duration deltas
and bumps the success count; an Errored or Killed job bumps the failure
count; any other state leaves the entry alone. -/
def applyArchivedPlotDir (p : ActivePlot) (e : plotDirData) : plotDirData :=
  match p.State with
  | .Finished =>
    { e with
      AvgPhase1 := e.AvgPhase1 + (p.getPhaseTime 1 - p.getPhaseTime 0)
      AvgPhase2 := e.AvgPhase2 + (p.getPhaseTime 2 - p.getPhaseTime 1)
      AvgPhase3 := e.AvgPhase3 + (p.getPhaseTime 3 - p.getPhaseTime 2)
      AvgPhase4 := e.AvgPhase4 + (p.getPhaseTime 4 - p.getPhaseTime 3)
      Count := e.Count + 1 }
  | .Errored => { e with Failed := e.Failed + 1 }
  | .Killed => { e with Failed := e.Failed + 1 }
  | .Running => e

/-- accArchivedPlotDirs embeds the archived-job loop of makePlotDirsData for
one host: look the directory entry up, create the orphan entry when the
directory is no longer advertised, then apply the job's state. -/
def accArchivedPlotDirs (acc : List (String × plotDirData)) (host : String)
    (jobs : List ActivePlot) : List (String × plotDirData) :=
  jobs.foldl
    (fun acc p =>
      mapInsert acc (dirKey host p.PlotDir)
        (applyArchivedPlotDir p
          ((mapLookup acc (dirKey host p.PlotDir)).getD (orphanPlotDir host p.PlotDir)))) acc

/-- plotHostStep is makePlotDirsData's per-host body: seed the advertised
directories, then fold the archived jobs. -/
def plotHostStep (acc : List (String × plotDirData)) (hm : String × Msg) :
    List (String × plotDirData) :=
  accArchivedPlotDirs (seedPlotDirs acc hm.1 hm.2) hm.1 hm.2.Archived

/-- rawPlotDirs embeds makePlotDirsData's accumulation over every host,
before the averaging loop. -/
def rawPlotDirs (store : List (String × Msg)) : List (String × plotDirData) :=
  store.foldl plotHostStep []

/-- finalizePlotDir embeds the averaging loop body of makePlotDirsData:
divide each accumulated sum by the success count only when that count is
positive (Go duration division truncates toward zero, Int.tdiv). -/
def finalizePlotDir (e : plotDirData) : plotDirData :=
  if 0 < e.Count then
    { e with
      AvgPhase1 := Int.tdiv e.AvgPhase1 (e.Count : Int)
      AvgPhase2 := Int.tdiv e.AvgPhase2 (e.Count : Int)
      AvgPhase3 := Int.tdiv e.AvgPhase3 (e.Count : Int)
      AvgPhase4 := Int.tdiv e.AvgPhase4 (e.Count : Int) }
  else e

/-- makePlotDirsData embeds Client.makePlotDirsData. -/
def makePlotDirsData (store : List (String × Msg)) : List (String × plotDirData) :=
  (rawPlotDirs store).map (fun kv => (kv.1, finalizePlotDir kv.2))

/-- destDirData embeds the destDirData row struct of client.go. -/
structure destDirData : Type where
  Host : String
  DestDir : String
  AvailableBytes : Nat
  AvgPlotTime : Int
  Count : Nat
  Failed : Nat
deriving DecidableEq

/-- seedDestDirs embeds the first loop of makeDestDirsData for one host. -/
def seedDestDirs (acc : List (String × destDirData)) (host : String) (m : Msg) :
    List (String × destDirData) :=
  m.TargetDirs.foldl
    (fun acc d => mapInsert acc (dirKey host d.1) ⟨host, d.1, d.2, 0, 0, 0⟩) acc

/-- orphanDestDir is the entry makeDestDirsData creates for a destination
directory found only in archived-job history. -/
def orphanDestDir (host dir : String) : destDirData :=
  ⟨host, dir, maxUint64, 0, 0, 0⟩

/-- applyArchivedDestDir embeds the state switch of makeDestDirsData's
archived-job loop: a Finished job accumulates the total plot duration and
bumps the success count; Errored or Killed bumps the failure count. -/
def applyArchivedDestDir (p : ActivePlot) (e : destDirData) : destDirData :=
  match p.State with
  | .Finished =>
    { e with
      AvgPlotTime := e.AvgPlotTime + (p.getPhaseTime 4 - p.getPhaseTime 0)
      Count := e.Count + 1 }
  | .Errored => { e with Failed := e.Failed + 1 }
  | .Killed => { e with Failed := e.Failed + 1 }
  | .Running => e

/-- accArchivedDestDirs embeds the archived-job loop of makeDestDirsData. -/
def accArchivedDestDirs (acc : List (String × destDirData)) (host : String)
    (jobs : List ActivePlot) : List (String × destDirData) :=
  jobs.foldl
    (fun acc p =>
      mapInsert acc (dirKey host p.TargetDir)
        (applyArchivedDestDir p
          ((mapLookup acc (dirKey host p.TargetDir)).getD (orphanDestDir host p.TargetDir)))) acc

/-- destHostStep is makeDestDirsData's per-host body. -/
def destHostStep (acc : List (String × destDirData)) (hm : String × Msg) :
    List (String × destDirData) :=
  accArchivedDestDirs (seedDestDirs acc hm.1 hm.2) hm.1 hm.2.Archived

/-- rawDestDirs embeds makeDestDirsData's accumulation over every host. -/
def rawDestDirs (store : List (String × Msg)) : List (String × destDirData) :=
  store.foldl destHostStep []

/-- finalizeDestDir embeds the averaging loop body of makeDestDirsData. -/
def finalizeDestDir (e : destDirData) : destDirData :=
  if 0 < e.Count then { e with AvgPlotTime := Int.tdiv e.AvgPlotTime (e.Count : Int) } else e

/-- makeDestDirsData embeds Client.makeDestDirsData. -/
def makeDestDirsData (store : List (String × Msg)) : List (String × destDirData) :=
  (rawDestDirs store).map (fun kv => (kv.1, finalizeDestDir kv.2))

/-- plotSumsZero states that all four accumulated phase sums of an entry are
zero. -/
def plotSumsZero (e : plotDirData) : Prop :=
  e.AvgPhase1 = 0 ∧ e.AvgPhase2 = 0 ∧ e.AvgPhase3 = 0 ∧ e.AvgPhase4 = 0

/-- plotInv: every entry of the accumulator with a zero success count has zero
accumulated sums. -/
def plotInv (acc : List (String × plotDirData)) : Prop :=
  ∀ kv ∈ acc, kv.2.Count = 0 → plotSumsZero kv.2

theorem plotInv_nil : plotInv [] := by
  intro kv hkv
  cases hkv

theorem plotInv_insert (acc : List (String × plotDirData)) (k : String) (v : plotDirData)
    (hacc : plotInv acc) (hv : v.Count = 0 → plotSumsZero v) : plotInv (mapInsert acc k v) := by
  intro kv hkv
  rcases mem_of_mem_mapInsert _ _ _ _ hkv with rfl | hm
  · exact hv
  · exact hacc kv hm

theorem applyArchivedPlotDir_count_zero (p : ActivePlot) (e : plotDirData)
    (he : e.Count = 0 → plotSumsZero e) :
    (applyArchivedPlotDir p e).Count = 0 → plotSumsZero (applyArchivedPlotDir p e) := by
  cases hs : p.State <;> simp [applyArchivedPlotDir, hs, plotSumsZero] <;>
  · intro hc
    rcases he hc with ⟨h1, h2, h3, h4⟩
    exact ⟨h1, h2, h3, h4⟩

theorem plotInv_seed_loop (host : String) (dirs : List (String × Nat)) :
    ∀ acc, plotInv acc →
    plotInv (dirs.foldl
      (fun acc d => mapInsert acc (dirKey host d.1) ⟨host, d.1, d.2, 0, 0, 0, 0, 0, 0⟩) acc) := by
  induction dirs with
  | nil => exact fun acc h => h
  | cons d rest ih =>
    intro acc h
    rw [List.foldl_cons]
    exact ih _ (plotInv_insert _ _ _ h (fun _ => ⟨rfl, rfl, rfl, rfl⟩))

theorem plotInv_arch_loop (host : String) (jobs : List ActivePlot) :
    ∀ acc, plotInv acc →
    plotInv (jobs.foldl
      (fun acc p => mapInsert acc (dirKey host p.PlotDir)
        (applyArchivedPlotDir p
          ((mapLookup acc (dirKey host p.PlotDir)).getD (orphanPlotDir host p.PlotDir)))) acc) := by
  induction jobs with
  | nil => exact fun acc h => h
  | cons p rest ih =>
    intro acc h
    rw [List.foldl_cons]
    apply ih
    apply plotInv_insert _ _ _ h
    apply applyArchivedPlotDir_count_zero
    cases hl : mapLookup acc (dirKey host p.PlotDir) with
    | none => exact fun _ => ⟨rfl, rfl, rfl, rfl⟩
    | some e0 => exact h _ (mapLookup_mem _ _ _ hl)

theorem plotInv_raw (store : List (String × Msg)) : plotInv (rawPlotDirs store) := by
  unfold rawPlotDirs
  have main : ∀ acc, plotInv acc → plotInv (store.foldl plotHostStep acc) := by
    induction store with
    | nil => exact fun acc h => h
    | cons hm rest ih =>
      intro acc h
      rw [List.foldl_cons]
      apply ih
      exact plotInv_arch_loop hm.1 hm.2.Archived _ (plotInv_seed_loop hm.1 hm.2.TempDirs acc h)
  exact main [] plotInv_nil

theorem finalizePlotDir_Count (e : plotDirData) : (finalizePlotDir e).Count = e.Count := by
  unfold finalizePlotDir
  split <;> rfl

theorem finalizePlotDir_fields (e : plotDirData) :
    (finalizePlotDir e).Host = e.Host ∧ (finalizePlotDir e).PlotDir = e.PlotDir ∧
    (finalizePlotDir e).AvailableBytes = e.AvailableBytes ∧
    (finalizePlotDir e).Failed = e.Failed := by
  unfold finalizePlotDir
  split <;> exact ⟨rfl, rfl, rfl, rfl⟩

/-- destSumZero states that the accumulated total-duration sum is zero. -/
def destSumZero (e : destDirData) : Prop := e.AvgPlotTime = 0

/-- destInv: every entry of the accumulator with a zero success count has a
zero accumulated sum. -/
def destInv (acc : List (String × destDirData)) : Prop :=
  ∀ kv ∈ acc, kv.2.Count = 0 → destSumZero kv.2

theorem destInv_nil : destInv [] := by
  intro kv hkv
  cases hkv

theorem destInv_insert (acc : List (String × destDirData)) (k : String) (v : destDirData)
    (hacc : destInv acc) (hv : v.Count = 0 → destSumZero v) : destInv (mapInsert acc k v) := by
  intro kv hkv
  rcases mem_of_mem_mapInsert _ _ _ _ hkv with rfl | hm
  · exact hv
  · exact hacc kv hm

theorem applyArchivedDestDir_count_zero (p : ActivePlot) (e : destDirData)
    (he : e.Count = 0 → destSumZero e) :
    (applyArchivedDestDir p e).Count = 0 → destSumZero (applyArchivedDestDir p e) := by
  cases hs : p.State <;> simp [applyArchivedDestDir, hs, destSumZero] <;> exact fun hc => he hc

theorem destInv_seed_loop (host : String) (dirs : List (String × Nat)) :
    ∀ acc, destInv acc →
    destInv (dirs.foldl
      (fun acc d => mapInsert acc (dirKey host d.1) ⟨host, d.1, d.2, 0, 0, 0⟩) acc) := by
  induction dirs with
  | nil => exact fun acc h => h
  | cons d rest ih =>
    intro acc h
    rw [List.foldl_cons]
    exact ih _ (destInv_insert _ _ _ h (fun _ => rfl))

theorem destInv_arch_loop (host : String) (jobs : List ActivePlot) :
    ∀ acc, destInv acc →
    destInv (jobs.foldl
      (fun acc p => mapInsert acc (dirKey host p.TargetDir)
        (applyArchivedDestDir p
          ((mapLookup acc (dirKey host p.TargetDir)).getD (orphanDestDir host p.TargetDir)))) acc) := by
  induction jobs with
  | nil => exact fun acc h => h
  | cons p rest ih =>
    intro acc h
    rw [List.foldl_cons]
    apply ih
    apply destInv_insert _ _ _ h
    apply applyArchivedDestDir_count_zero
    cases hl : mapLookup acc (dirKey host p.TargetDir) with
    | none => exact fun _ => rfl
    | some e0 => exact h _ (mapLookup_mem _ _ _ hl)

theorem destInv_raw (store : List (String × Msg)) : destInv (rawDestDirs store) := by
  unfold rawDestDirs
  have main : ∀ acc, destInv acc → destInv (store.foldl destHostStep acc) := by
    induction store with
    | nil => exact fun acc h => h
    | cons hm rest ih =>
      intro acc h
      rw [List.foldl_cons]
      apply ih
      exact destInv_arch_loop hm.1 hm.2.Archived _ (destInv_seed_loop hm.1 hm.2.TargetDirs acc h)
  exact main [] destInv_nil

theorem finalizeDestDir_Count (e : destDirData) : (finalizeDestDir e).Count = e.Count := by
  unfold finalizeDestDir
  split <;> rfl

theorem finalizeDestDir_fields (e : destDirData) :
    (finalizeDestDir e).Host = e.Host ∧ (finalizeDestDir e).DestDir = e.DestDir ∧
    (finalizeDestDir e).AvailableBytes = e.AvailableBytes ∧
    (finalizeDestDir e).Failed = e.Failed := by
  unfold finalizeDestDir
  split <;> exact ⟨rfl, rfl, rfl, rfl⟩

/-- C3: in every aggregation pass, a directory entry's averages are the
accumulated sums divided (truncated, as Go duration division) by the success
count exactly when that count is positive; an entry with a zero success count
has all its averages exactly zero. -/
theorem aggregation_average_guard (store : List (String × Msg)) :
    (∀ k pdd, mapLookup (makePlotDirsData store) k = some pdd →
      (pdd.Count = 0 →
        pdd.AvgPhase1 = 0 ∧ pdd.AvgPhase2 = 0 ∧ pdd.AvgPhase3 = 0 ∧ pdd.AvgPhase4 = 0) ∧
      (0 < pdd.Count → ∃ r, mapLookup (rawPlotDirs store) k = some r ∧ r.Count = pdd.Count ∧
        pdd.AvgPhase1 = Int.tdiv r.AvgPhase1 (r.Count : Int) ∧
        pdd.AvgPhase2 = Int.tdiv r.AvgPhase2 (r.Count : Int) ∧
        pdd.AvgPhase3 = Int.tdiv r.AvgPhase3 (r.Count : Int) ∧
        pdd.AvgPhase4 = Int.tdiv r.AvgPhase4 (r.Count : Int))) ∧
    (∀ k ddd, mapLookup (makeDestDirsData store) k = some ddd →
      (ddd.Count = 0 → ddd.AvgPlotTime = 0) ∧
      (0 < ddd.Count → ∃ r, mapLookup (rawDestDirs store) k = some r ∧ r.Count = ddd.Count ∧
        ddd.AvgPlotTime = Int.tdiv r.AvgPlotTime (r.Count : Int))) := by
  constructor
  · intro k pdd hk
    rw [show makePlotDirsData store =
      (rawPlotDirs store).map (fun kv => (kv.1, finalizePlotDir kv.2)) from rfl,
      mapLookup_map_value] at hk
    rcases Option.map_eq_some'.mp hk with ⟨r, hr, hfin⟩
    constructor
    · intro hc
      have hrc : r.Count = 0 := by
        rw [← finalizePlotDir_Count r, hfin]
        exact hc
      have hz := plotInv_raw store (k, r) (mapLookup_mem _ _ _ hr) hrc
      have hid : finalizePlotDir r = r := by
        unfold finalizePlotDir
        rw [hrc]
        simp
      rw [← hfin, hid]
      exact hz
    · intro hc
      have hrc : r.Count = pdd.Count := by
        rw [← finalizePlotDir_Count r, hfin]
      have hpos : 0 < r.Count := by
        rw [hrc]
        exact hc
      refine ⟨r, hr, hrc, ?_, ?_, ?_, ?_⟩
      all_goals rw [← hfin]
      all_goals unfold finalizePlotDir
      all_goals rw [if_pos hpos]
  · intro k ddd hk
    rw [show makeDestDirsData store =
      (rawDestDirs store).map (fun kv => (kv.1, finalizeDestDir kv.2)) from rfl,
      mapLookup_map_value] at hk
    rcases Option.map_eq_some'.mp hk with ⟨r, hr, hfin⟩
    constructor
    · intro hc
      have hrc : r.Count = 0 := by
        rw [← finalizeDestDir_Count r, hfin]
        exact hc
      have hz := destInv_raw store (k, r) (mapLookup_mem _ _ _ hr) hrc
      have hid : finalizeDestDir r = r := by
        unfold finalizeDestDir
        rw [hrc]
        simp
      rw [← hfin, hid]
      exact hz
    · intro hc
      have hrc : r.Count = ddd.Count := by
        rw [← finalizeDestDir_Count r, hfin]
      have hpos : 0 < r.Count := by
        rw [hrc]
        exact hc
      refine ⟨r, hr, hrc, ?_⟩
      rw [← hfin]
      unfold finalizeDestDir
      rw [if_pos hpos]

/-- C3 witness: a host advertising one source and one destination directory
with no archived jobs yields zero-sample entries with zero averages. -/
theorem aggregation_average_guard_witness :
    ((⟨"h", "d", 5, 0, 0, 0, 0, 0, 0⟩ : plotDirData).AvgPhase1 = 0 ∧
      (⟨"h", "d", 5, 0, 0, 0, 0, 0, 0⟩ : plotDirData).AvgPhase2 = 0 ∧
      (⟨"h", "d", 5, 0, 0, 0, 0, 0, 0⟩ : plotDirData).AvgPhase3 = 0 ∧
      (⟨"h", "d", 5, 0, 0, 0, 0, 0, 0⟩ : plotDirData).AvgPhase4 = 0) :=
  ((aggregation_average_guard [("h", ⟨"", [], [], [("d", 5)], [("e", 7)]⟩)]).1
    (dirKey "h" "d") ⟨"h", "d", 5, 0, 0, 0, 0, 0, 0⟩ (by decide)).1 (by decide)

/-! Orphaned-directory analysis for C4. -/

theorem dirKey_right_inj (h a b : String) (he : dirKey h a = dirKey h b) : a = b := by
  unfold dirKey at he
  have hd := congrArg String.data he
  simp only [String.data_append] at hd
  have h2 := List.append_cancel_left hd
  cases a
  cases b
  simp only at h2
  rw [h2]

/-- plotTouchedDirs lists every directory of a snapshot that the source-dir
aggregator writes a key for: the advertised temp directories and the archived
jobs' plot directories. -/
def plotTouchedDirs (m : Msg) : List String :=
  m.TempDirs.map Prod.fst ++ m.Archived.map ActivePlot.PlotDir

/-- destTouchedDirs lists every directory of a snapshot that the
destination-dir aggregator writes a key for. -/
def destTouchedDirs (m : Msg) : List String :=
  m.TargetDirs.map Prod.fst ++ m.Archived.map ActivePlot.TargetDir

theorem foldl_insert_lookup_other {α β : Type} (key : β → String)
    (val : List (String × α) → β → α) (K : String) (l : List β) :
    ∀ acc, (∀ b ∈ l, key b ≠ K) →
    mapLookup (l.foldl (fun acc b => mapInsert acc (key b) (val acc b)) acc) K =
      mapLookup acc K := by
  induction l with
  | nil => exact fun acc _ => rfl
  | cons b rest ih =>
    intro acc hb
    rw [List.foldl_cons, ih _ (fun q hq => hb q (List.mem_cons_of_mem _ hq))]
    exact mapLookup_mapInsert_ne _ _ _ _ (hb b (List.mem_cons_self _ _)).symm

theorem seedPlotDirs_lookup_other (acc : List (String × plotDirData)) (host : String) (m : Msg)
    (K : String) (h : ∀ d ∈ m.TempDirs, dirKey host d.1 ≠ K) :
    mapLookup (seedPlotDirs acc host m) K = mapLookup acc K := by
  unfold seedPlotDirs
  exact foldl_insert_lookup_other (fun d => dirKey host d.1)
    (fun _ d => ⟨host, d.1, d.2, 0, 0, 0, 0, 0, 0⟩) K m.TempDirs acc h

theorem accArchivedPlotDirs_lookup_other (acc : List (String × plotDirData)) (host : String)
    (jobs : List ActivePlot) (K : String) (h : ∀ p ∈ jobs, dirKey host p.PlotDir ≠ K) :
    mapLookup (accArchivedPlotDirs acc host jobs) K = mapLookup acc K := by
  unfold accArchivedPlotDirs
  exact foldl_insert_lookup_other (fun p => dirKey host p.PlotDir)
    (fun acc p => applyArchivedPlotDir p
      ((mapLookup acc (dirKey host p.PlotDir)).getD (orphanPlotDir host p.PlotDir)))
    K jobs acc h

theorem seedDestDirs_lookup_other (acc : List (String × destDirData)) (host : String) (m : Msg)
    (K : String) (h : ∀ d ∈ m.TargetDirs, dirKey host d.1 ≠ K) :
    mapLookup (seedDestDirs acc host m) K = mapLookup acc K := by
  unfold seedDestDirs
  exact foldl_insert_lookup_other (fun d => dirKey host d.1)
    (fun _ d => ⟨host, d.1, d.2, 0, 0, 0⟩) K m.TargetDirs acc h

theorem accArchivedDestDirs_lookup_other (acc : List (String × destDirData)) (host : String)
    (jobs : List ActivePlot) (K : String) (h : ∀ p ∈ jobs, dirKey host p.TargetDir ≠ K) :
    mapLookup (accArchivedDestDirs acc host jobs) K = mapLookup acc K := by
  unfold accArchivedDestDirs
  exact foldl_insert_lookup_other (fun p => dirKey host p.TargetDir)
    (fun acc p => applyArchivedDestDir p
      ((mapLookup acc (dirKey host p.TargetDir)).getD (orphanDestDir host p.TargetDir)))
    K jobs acc h

/-- stepPlotEntry tracks, through the archived-job loop, the entry stored at
the key of one fixed (host, dir) pair. -/
def stepPlotEntry (host dir : String) (o : Option plotDirData) (p : ActivePlot) :
    Option plotDirData :=
  if p.PlotDir == dir then some (applyArchivedPlotDir p (o.getD (orphanPlotDir host dir)))
  else o

/-- stepDestEntry is the destination-side analogue of stepPlotEntry. -/
def stepDestEntry (host dir : String) (o : Option destDirData) (p : ActivePlot) :
    Option destDirData :=
  if p.TargetDir == dir then some (applyArchivedDestDir p (o.getD (orphanDestDir host dir)))
  else o

theorem accArchivedPlotDirs_lookup_at (host dir : String) (jobs : List ActivePlot) :
    ∀ acc, mapLookup (accArchivedPlotDirs acc host jobs) (dirKey host dir) =
      jobs.foldl (stepPlotEntry host dir) (mapLookup acc (dirKey host dir)) := by
  induction jobs with
  | nil => exact fun acc => rfl
  | cons p rest ih =>
    intro acc
    have hcons : accArchivedPlotDirs acc host (p :: rest) =
        accArchivedPlotDirs (mapInsert acc (dirKey host p.PlotDir)
          (applyArchivedPlotDir p ((mapLookup acc (dirKey host p.PlotDir)).getD
            (orphanPlotDir host p.PlotDir)))) host rest := rfl
    rw [hcons, ih, List.foldl_cons]
    congr 1
    by_cases hpd : p.PlotDir = dir
    · rw [hpd, mapLookup_mapInsert_self]
      simp [stepPlotEntry, hpd]
    · have hne : dirKey host dir ≠ dirKey host p.PlotDir :=
        fun he => hpd (dirKey_right_inj host p.PlotDir dir he.symm)
      rw [mapLookup_mapInsert_ne _ _ _ _ hne]
      simp [stepPlotEntry, hpd]

theorem accArchivedDestDirs_lookup_at (host dir : String) (jobs : List ActivePlot) :
    ∀ acc, mapLookup (accArchivedDestDirs acc host jobs) (dirKey host dir) =
      jobs.foldl (stepDestEntry host dir) (mapLookup acc (dirKey host dir)) := by
  induction jobs with
  | nil => exact fun acc => rfl
  | cons p rest ih =>
    intro acc
    have hcons : accArchivedDestDirs acc host (p :: rest) =
        accArchivedDestDirs (mapInsert acc (dirKey host p.TargetDir)
          (applyArchivedDestDir p ((mapLookup acc (dirKey host p.TargetDir)).getD
            (orphanDestDir host p.TargetDir)))) host rest := rfl
    rw [hcons, ih, List.foldl_cons]
    congr 1
    by_cases hpd : p.TargetDir = dir
    · rw [hpd, mapLookup_mapInsert_self]
      simp [stepDestEntry, hpd]
    · have hne : dirKey host dir ≠ dirKey host p.TargetDir :=
        fun he => hpd (dirKey_right_inj host p.TargetDir dir he.symm)
      rw [mapLookup_mapInsert_ne _ _ _ _ hne]
      simp [stepDestEntry, hpd]

/-- countFinishedPlot counts the archived Finished jobs using a directory as
their plot (source) directory. -/
def countFinishedPlot (dir : String) (jobs : List ActivePlot) : Nat :=
  (jobs.filter (fun p => decide (p.PlotDir = dir ∧ p.State = PlotState.Finished))).length

/-- countFailedPlot counts the archived Errored or Killed jobs using a
directory as their plot (source) directory. -/
def countFailedPlot (dir : String) (jobs : List ActivePlot) : Nat :=
  (jobs.filter (fun p => decide (p.PlotDir = dir ∧
    (p.State = PlotState.Errored ∨ p.State = PlotState.Killed)))).length

/-- countFinishedDest counts the archived Finished jobs using a directory as
their target (destination) directory. -/
def countFinishedDest (dir : String) (jobs : List ActivePlot) : Nat :=
  (jobs.filter (fun p => decide (p.TargetDir = dir ∧ p.State = PlotState.Finished))).length

/-- countFailedDest counts the archived Errored or Killed jobs using a
directory as their target (destination) directory. -/
def countFailedDest (dir : String) (jobs : List ActivePlot) : Nat :=
  (jobs.filter (fun p => decide (p.TargetDir = dir ∧
    (p.State = PlotState.Errored ∨ p.State = PlotState.Killed)))).length

theorem applyArchivedPlotDir_fields (p : ActivePlot) (e : plotDirData) :
    (applyArchivedPlotDir p e).Host = e.Host ∧ (applyArchivedPlotDir p e).PlotDir = e.PlotDir ∧
    (applyArchivedPlotDir p e).AvailableBytes = e.AvailableBytes ∧
    (applyArchivedPlotDir p e).Count =
      e.Count + (if p.State = PlotState.Finished then 1 else 0) ∧
    (applyArchivedPlotDir p e).Failed =
      e.Failed + (if p.State = PlotState.Errored ∨ p.State = PlotState.Killed then 1 else 0) := by
  cases hs : p.State <;> simp [applyArchivedPlotDir, hs]

theorem applyArchivedDestDir_fields (p : ActivePlot) (e : destDirData) :
    (applyArchivedDestDir p e).Host = e.Host ∧ (applyArchivedDestDir p e).DestDir = e.DestDir ∧
    (applyArchivedDestDir p e).AvailableBytes = e.AvailableBytes ∧
    (applyArchivedDestDir p e).Count =
      e.Count + (if p.State = PlotState.Finished then 1 else 0) ∧
    (applyArchivedDestDir p e).Failed =
      e.Failed + (if p.State = PlotState.Errored ∨ p.State = PlotState.Killed then 1 else 0) := by
  cases hs : p.State <;> simp [applyArchivedDestDir, hs]

theorem countFinishedPlot_cons (dir : String) (p : ActivePlot) (rest : List ActivePlot) :
    countFinishedPlot dir (p :: rest) =
      (if p.PlotDir = dir ∧ p.State = PlotState.Finished then 1 else 0) +
        countFinishedPlot dir rest := by
  unfold countFinishedPlot
  rw [List.filter_cons]
  by_cases h : p.PlotDir = dir ∧ p.State = PlotState.Finished
  · simp [h]
    omega
  · simp [h]

theorem countFailedPlot_cons (dir : String) (p : ActivePlot) (rest : List ActivePlot) :
    countFailedPlot dir (p :: rest) =
      (if p.PlotDir = dir ∧ (p.State = PlotState.Errored ∨ p.State = PlotState.Killed)
        then 1 else 0) + countFailedPlot dir rest := by
  unfold countFailedPlot
  rw [List.filter_cons]
  by_cases h : p.PlotDir = dir ∧ (p.State = PlotState.Errored ∨ p.State = PlotState.Killed)
  · simp [h]
    omega
  · simp [h]

theorem countFinishedDest_cons (dir : String) (p : ActivePlot) (rest : List ActivePlot) :
    countFinishedDest dir (p :: rest) =
      (if p.TargetDir = dir ∧ p.State = PlotState.Finished then 1 else 0) +
        countFinishedDest dir rest := by
  unfold countFinishedDest
  rw [List.filter_cons]
  by_cases h : p.TargetDir = dir ∧ p.State = PlotState.Finished
  · simp [h]
    omega
  · simp [h]

theorem countFailedDest_cons (dir : String) (p : ActivePlot) (rest : List ActivePlot) :
    countFailedDest dir (p :: rest) =
      (if p.TargetDir = dir ∧ (p.State = PlotState.Errored ∨ p.State = PlotState.Killed)
        then 1 else 0) + countFailedDest dir rest := by
  unfold countFailedDest
  rw [List.filter_cons]
  by_cases h : p.TargetDir = dir ∧ (p.State = PlotState.Errored ∨ p.State = PlotState.Killed)
  · simp [h]
    omega
  · simp [h]

theorem stepPlot_foldl_some (host dir : String) (jobs : List ActivePlot) :
    ∀ e : plotDirData, ∃ e2, jobs.foldl (stepPlotEntry host dir) (some e) = some e2 ∧
      e2.Host = e.Host ∧ e2.PlotDir = e.PlotDir ∧ e2.AvailableBytes = e.AvailableBytes ∧
      e2.Count = e.Count + countFinishedPlot dir jobs ∧
      e2.Failed = e.Failed + countFailedPlot dir jobs := by
  induction jobs with
  | nil =>
    intro e
    refine ⟨e, rfl, rfl, rfl, rfl, ?_, ?_⟩
    · simp [countFinishedPlot]
    · simp [countFailedPlot]
  | cons p rest ih =>
    intro e
    rw [List.foldl_cons]
    by_cases hpd : p.PlotDir = dir
    · have hstep : stepPlotEntry host dir (some e) p = some (applyArchivedPlotDir p e) := by
        simp [stepPlotEntry, hpd]
      rw [hstep]
      rcases ih (applyArchivedPlotDir p e) with ⟨e2, heq, hH, hP, hA, hC, hF⟩
      rcases applyArchivedPlotDir_fields p e with ⟨fH, fP, fA, fC, fF⟩
      refine ⟨e2, heq, by rw [hH, fH], by rw [hP, fP], by rw [hA, fA], ?_, ?_⟩
      · rw [hC, fC, countFinishedPlot_cons]
        by_cases hs : p.State = PlotState.Finished
        · rw [if_pos hs, if_pos (And.intro hpd hs)]
          omega
        · have hcond : ¬ (p.PlotDir = dir ∧ p.State = PlotState.Finished) :=
            fun hc => hs hc.2
          rw [if_neg hs, if_neg hcond]
          omega
      · rw [hF, fF, countFailedPlot_cons]
        by_cases hs : p.State = PlotState.Errored ∨ p.State = PlotState.Killed
        · rw [if_pos hs, if_pos (And.intro hpd hs)]
          omega
        · have hcond : ¬ (p.PlotDir = dir ∧
            (p.State = PlotState.Errored ∨ p.State = PlotState.Killed)) := fun hc => hs hc.2
          rw [if_neg hs, if_neg hcond]
          omega
    · have hstep : stepPlotEntry host dir (some e) p = some e := by
        simp [stepPlotEntry, hpd]
      rw [hstep]
      rcases ih e with ⟨e2, heq, hH, hP, hA, hC, hF⟩
      refine ⟨e2, heq, hH, hP, hA, ?_, ?_⟩
      · have hcond : ¬ (p.PlotDir = dir ∧ p.State = PlotState.Finished) := fun hc => hpd hc.1
        rw [hC, countFinishedPlot_cons, if_neg hcond]
        omega
      · have hcond : ¬ (p.PlotDir = dir ∧
          (p.State = PlotState.Errored ∨ p.State = PlotState.Killed)) := fun hc => hpd hc.1
        rw [hF, countFailedPlot_cons, if_neg hcond]
        omega

theorem stepPlot_foldl_none (host dir : String) (jobs : List ActivePlot) :
    (∃ p ∈ jobs, p.PlotDir = dir) →
    ∃ e2, jobs.foldl (stepPlotEntry host dir) none = some e2 ∧
      e2.Host = host ∧ e2.PlotDir = dir ∧ e2.AvailableBytes = maxUint64 ∧
      e2.Count = countFinishedPlot dir jobs ∧ e2.Failed = countFailedPlot dir jobs := by
  induction jobs with
  | nil =>
    rintro ⟨p, hp, _⟩
    cases hp
  | cons p rest ih =>
    intro hex
    rw [List.foldl_cons]
    by_cases hpd : p.PlotDir = dir
    · have hstep : stepPlotEntry host dir none p =
          some (applyArchivedPlotDir p (orphanPlotDir host dir)) := by
        simp [stepPlotEntry, hpd]
      rw [hstep]
      rcases stepPlot_foldl_some host dir rest (applyArchivedPlotDir p (orphanPlotDir host dir))
        with ⟨e2, heq, hH, hP, hA, hC, hF⟩
      rcases applyArchivedPlotDir_fields p (orphanPlotDir host dir) with ⟨fH, fP, fA, fC, fF⟩
      have oH : (orphanPlotDir host dir).Host = host := rfl
      have oP : (orphanPlotDir host dir).PlotDir = dir := rfl
      have oA : (orphanPlotDir host dir).AvailableBytes = maxUint64 := rfl
      have oC : (orphanPlotDir host dir).Count = 0 := rfl
      have oF : (orphanPlotDir host dir).Failed = 0 := rfl
      refine ⟨e2, heq, by rw [hH, fH, oH], by rw [hP, fP, oP], by rw [hA, fA, oA], ?_, ?_⟩
      · rw [hC, fC, oC, countFinishedPlot_cons]
        by_cases hs : p.State = PlotState.Finished
        · rw [if_pos hs, if_pos (And.intro hpd hs)]
        · have hcond : ¬ (p.PlotDir = dir ∧ p.State = PlotState.Finished) :=
            fun hc => hs hc.2
          rw [if_neg hs, if_neg hcond]
      · rw [hF, fF, oF, countFailedPlot_cons]
        by_cases hs : p.State = PlotState.Errored ∨ p.State = PlotState.Killed
        · rw [if_pos hs, if_pos (And.intro hpd hs)]
        · have hcond : ¬ (p.PlotDir = dir ∧
            (p.State = PlotState.Errored ∨ p.State = PlotState.Killed)) := fun hc => hs hc.2
          rw [if_neg hs, if_neg hcond]
    · have hstep : stepPlotEntry host dir none p = none := by
        simp [stepPlotEntry, hpd]
      rw [hstep]
      have hex2 : ∃ q ∈ rest, q.PlotDir = dir := by
        rcases hex with ⟨q, hq, hqd⟩
        rcases List.mem_cons.mp hq with rfl | hq2
        · exact absurd hqd hpd
        · exact ⟨q, hq2, hqd⟩
      rcases ih hex2 with ⟨e2, heq, hH, hP, hA, hC, hF⟩
      refine ⟨e2, heq, hH, hP, hA, ?_, ?_⟩
      · have hcond : ¬ (p.PlotDir = dir ∧ p.State = PlotState.Finished) := fun hc => hpd hc.1
        rw [hC, countFinishedPlot_cons, if_neg hcond]
        omega
      · have hcond : ¬ (p.PlotDir = dir ∧
          (p.State = PlotState.Errored ∨ p.State = PlotState.Killed)) := fun hc => hpd hc.1
        rw [hF, countFailedPlot_cons, if_neg hcond]
        omega

theorem stepDest_foldl_some (host dir : String) (jobs : List ActivePlot) :
    ∀ e : destDirData, ∃ e2, jobs.foldl (stepDestEntry host dir) (some e) = some e2 ∧
      e2.Host = e.Host ∧ e2.DestDir = e.DestDir ∧ e2.AvailableBytes = e.AvailableBytes ∧
      e2.Count = e.Count + countFinishedDest dir jobs ∧
      e2.Failed = e.Failed + countFailedDest dir jobs := by
  induction jobs with
  | nil =>
    intro e
    refine ⟨e, rfl, rfl, rfl, rfl, ?_, ?_⟩
    · simp [countFinishedDest]
    · simp [countFailedDest]
  | cons p rest ih =>
    intro e
    rw [List.foldl_cons]
    by_cases hpd : p.TargetDir = dir
    · have hstep : stepDestEntry host dir (some e) p = some (applyArchivedDestDir p e) := by
        simp [stepDestEntry, hpd]
      rw [hstep]
      rcases ih (applyArchivedDestDir p e) with ⟨e2, heq, hH, hP, hA, hC, hF⟩
      rcases applyArchivedDestDir_fields p e with ⟨fH, fP, fA, fC, fF⟩
      refine ⟨e2, heq, by rw [hH, fH], by rw [hP, fP], by rw [hA, fA], ?_, ?_⟩
      · rw [hC, fC, countFinishedDest_cons]
        by_cases hs : p.State = PlotState.Finished
        · rw [if_pos hs, if_pos (And.intro hpd hs)]
          omega
        · have hcond : ¬ (p.TargetDir = dir ∧ p.State = PlotState.Finished) :=
            fun hc => hs hc.2
          rw [if_neg hs, if_neg hcond]
          omega
      · rw [hF, fF, countFailedDest_cons]
        by_cases hs : p.State = PlotState.Errored ∨ p.State = PlotState.Killed
        · rw [if_pos hs, if_pos (And.intro hpd hs)]
          omega
        · have hcond : ¬ (p.TargetDir = dir ∧
            (p.State = PlotState.Errored ∨ p.State = PlotState.Killed)) := fun hc => hs hc.2
          rw [if_neg hs, if_neg hcond]
          omega
    · have hstep : stepDestEntry host dir (some e) p = some e := by
        simp [stepDestEntry, hpd]
      rw [hstep]
      rcases ih e with ⟨e2, heq, hH, hP, hA, hC, hF⟩
      refine ⟨e2, heq, hH, hP, hA, ?_, ?_⟩
      · have hcond : ¬ (p.TargetDir = dir ∧ p.State = PlotState.Finished) := fun hc => hpd hc.1
        rw [hC, countFinishedDest_cons, if_neg hcond]
        omega
      · have hcond : ¬ (p.TargetDir = dir ∧
          (p.State = PlotState.Errored ∨ p.State = PlotState.Killed)) := fun hc => hpd hc.1
        rw [hF, countFailedDest_cons, if_neg hcond]
        omega

theorem stepDest_foldl_none (host dir : String) (jobs : List ActivePlot) :
    (∃ p ∈ jobs, p.TargetDir = dir) →
    ∃ e2, jobs.foldl (stepDestEntry host dir) none = some e2 ∧
      e2.Host = host ∧ e2.DestDir = dir ∧ e2.AvailableBytes = maxUint64 ∧
      e2.Count = countFinishedDest dir jobs ∧ e2.Failed = countFailedDest dir jobs := by
  induction jobs with
  | nil =>
    rintro ⟨p, hp, _⟩
    cases hp
  | cons p rest ih =>
    intro hex
    rw [List.foldl_cons]
    by_cases hpd : p.TargetDir = dir
    · have hstep : stepDestEntry host dir none p =
          some (applyArchivedDestDir p (orphanDestDir host dir)) := by
        simp [stepDestEntry, hpd]
      rw [hstep]
      rcases stepDest_foldl_some host dir rest (applyArchivedDestDir p (orphanDestDir host dir))
        with ⟨e2, heq, hH, hP, hA, hC, hF⟩
      rcases applyArchivedDestDir_fields p (orphanDestDir host dir) with ⟨fH, fP, fA, fC, fF⟩
      have oH : (orphanDestDir host dir).Host = host := rfl
      have oP : (orphanDestDir host dir).DestDir = dir := rfl
      have oA : (orphanDestDir host dir).AvailableBytes = maxUint64 := rfl
      have oC : (orphanDestDir host dir).Count = 0 := rfl
      have oF : (orphanDestDir host dir).Failed = 0 := rfl
      refine ⟨e2, heq, by rw [hH, fH, oH], by rw [hP, fP, oP], by rw [hA, fA, oA], ?_, ?_⟩
      · rw [hC, fC, oC, countFinishedDest_cons]
        by_cases hs : p.State = PlotState.Finished
        · rw [if_pos hs, if_pos (And.intro hpd hs)]
        · have hcond : ¬ (p.TargetDir = dir ∧ p.State = PlotState.Finished) :=
            fun hc => hs hc.2
          rw [if_neg hs, if_neg hcond]
      · rw [hF, fF, oF, countFailedDest_cons]
        by_cases hs : p.State = PlotState.Errored ∨ p.State = PlotState.Killed
        · rw [if_pos hs, if_pos (And.intro hpd hs)]
        · have hcond : ¬ (p.TargetDir = dir ∧
            (p.State = PlotState.Errored ∨ p.State = PlotState.Killed)) := fun hc => hs hc.2
          rw [if_neg hs, if_neg hcond]
    · have hstep : stepDestEntry host dir none p = none := by
        simp [stepDestEntry, hpd]
      rw [hstep]
      have hex2 : ∃ q ∈ rest, q.TargetDir = dir := by
        rcases hex with ⟨q, hq, hqd⟩
        rcases List.mem_cons.mp hq with rfl | hq2
        · exact absurd hqd hpd
        · exact ⟨q, hq2, hqd⟩
      rcases ih hex2 with ⟨e2, heq, hH, hP, hA, hC, hF⟩
      refine ⟨e2, heq, hH, hP, hA, ?_, ?_⟩
      · have hcond : ¬ (p.TargetDir = dir ∧ p.State = PlotState.Finished) := fun hc => hpd hc.1
        rw [hC, countFinishedDest_cons, if_neg hcond]
        omega
      · have hcond : ¬ (p.TargetDir = dir ∧
          (p.State = PlotState.Errored ∨ p.State = PlotState.Killed)) := fun hc => hpd hc.1
        rw [hF, countFailedDest_cons, if_neg hcond]
        omega

theorem store_foldl_plot_lookup_other (K : String) (store : List (String × Msg)) :
    ∀ acc, (∀ hm ∈ store, (∀ d ∈ hm.2.TempDirs, dirKey hm.1 d.1 ≠ K) ∧
      (∀ p ∈ hm.2.Archived, dirKey hm.1 p.PlotDir ≠ K)) →
    mapLookup (store.foldl plotHostStep acc) K = mapLookup acc K := by
  induction store with
  | nil => exact fun acc _ => rfl
  | cons hm rest ih =>
    intro acc h
    rw [List.foldl_cons, ih _ (fun q hq => h q (List.mem_cons_of_mem _ hq))]
    unfold plotHostStep
    rw [accArchivedPlotDirs_lookup_other _ _ _ _ (h hm (List.mem_cons_self _ _)).2,
      seedPlotDirs_lookup_other _ _ _ _ (h hm (List.mem_cons_self _ _)).1]

theorem store_foldl_dest_lookup_other (K : String) (store : List (String × Msg)) :
    ∀ acc, (∀ hm ∈ store, (∀ d ∈ hm.2.TargetDirs, dirKey hm.1 d.1 ≠ K) ∧
      (∀ p ∈ hm.2.Archived, dirKey hm.1 p.TargetDir ≠ K)) →
    mapLookup (store.foldl destHostStep acc) K = mapLookup acc K := by
  induction store with
  | nil => exact fun acc _ => rfl
  | cons hm rest ih =>
    intro acc h
    rw [List.foldl_cons, ih _ (fun q hq => h q (List.mem_cons_of_mem _ hq))]
    unfold destHostStep
    rw [accArchivedDestDirs_lookup_other _ _ _ _ (h hm (List.mem_cons_self _ _)).2,
      seedDestDirs_lookup_other _ _ _ _ (h hm (List.mem_cons_self _ _)).1]

theorem orphanPlot_lookup (store : List (String × Msg)) (host : String) (m : Msg) (dir : String)
    (hnd : (store.map Prod.fst).Nodup)
    (hmem : (host, m) ∈ store)
    (hnew : ∀ hm ∈ store, ∀ d ∈ plotTouchedDirs hm.2,
      dirKey hm.1 d = dirKey host dir → hm.1 = host ∧ d = dir)
    (horph : dir ∉ m.TempDirs.map Prod.fst)
    (hused : ∃ p ∈ m.Archived, p.PlotDir = dir) :
    ∃ e, mapLookup (rawPlotDirs store) (dirKey host dir) = some e ∧
      e.Host = host ∧ e.PlotDir = dir ∧ e.AvailableBytes = maxUint64 ∧
      e.Count = countFinishedPlot dir m.Archived ∧
      e.Failed = countFailedPlot dir m.Archived := by
  rcases List.append_of_mem hmem with ⟨l1, l2, rfl⟩
  have hmap : ((l1 ++ (host, m) :: l2).map Prod.fst) =
      l1.map Prod.fst ++ host :: l2.map Prod.fst := by
    simp
  rw [hmap] at hnd
  rcases List.nodup_append.mp hnd with ⟨hnd1, hnd2, hdisj⟩
  have hostL2 : host ∉ l2.map Prod.fst := (List.nodup_cons.mp hnd2).1
  have hostL1 : host ∉ l1.map Prod.fst := fun hh => hdisj hh (List.mem_cons_self _ _)
  have hcond : ∀ hm ∈ l1 ++ (host, m) :: l2, hm.1 ≠ host →
      (∀ d ∈ hm.2.TempDirs, dirKey hm.1 d.1 ≠ dirKey host dir) ∧
      (∀ p ∈ hm.2.Archived, dirKey hm.1 p.PlotDir ≠ dirKey host dir) := by
    intro hm hhm hne
    constructor
    · intro d hd heq
      exact hne (hnew hm hhm d.1 (by
        unfold plotTouchedDirs
        exact List.mem_append_left _ (List.mem_map_of_mem Prod.fst hd)) heq).1
    · intro p hp heq
      exact hne (hnew hm hhm p.PlotDir (by
        unfold plotTouchedDirs
        exact List.mem_append_right _ (List.mem_map_of_mem ActivePlot.PlotDir hp)) heq).1
  have hl1 : ∀ hm ∈ l1, (∀ d ∈ hm.2.TempDirs, dirKey hm.1 d.1 ≠ dirKey host dir) ∧
      (∀ p ∈ hm.2.Archived, dirKey hm.1 p.PlotDir ≠ dirKey host dir) := by
    intro hm hhm
    refine hcond hm (List.mem_append_left _ hhm) ?_
    intro hh
    exact hostL1 (hh ▸ List.mem_map_of_mem Prod.fst hhm)
  have hl2 : ∀ hm ∈ l2, (∀ d ∈ hm.2.TempDirs, dirKey hm.1 d.1 ≠ dirKey host dir) ∧
      (∀ p ∈ hm.2.Archived, dirKey hm.1 p.PlotDir ≠ dirKey host dir) := by
    intro hm hhm
    refine hcond hm (List.mem_append_right _ (List.mem_cons_of_mem _ hhm)) ?_
    intro hh
    exact hostL2 (hh ▸ List.mem_map_of_mem Prod.fst hhm)
  have hraw : rawPlotDirs (l1 ++ (host, m) :: l2) =
      l2.foldl plotHostStep (plotHostStep (l1.foldl plotHostStep []) (host, m)) := by
    unfold rawPlotDirs
    rw [List.foldl_append, List.foldl_cons]
  have hA : mapLookup (l1.foldl plotHostStep []) (dirKey host dir) = none :=
    (store_foldl_plot_lookup_other (dirKey host dir) l1 [] hl1).trans rfl
  have hseedcond : ∀ d ∈ m.TempDirs, dirKey host d.1 ≠ dirKey host dir := by
    intro d hd heq
    exact horph (dirKey_right_inj host d.1 dir heq ▸ List.mem_map_of_mem Prod.fst hd)
  have hseed : mapLookup (seedPlotDirs (l1.foldl plotHostStep []) host m)
      (dirKey host dir) = none := by
    rw [seedPlotDirs_lookup_other _ _ _ _ hseedcond]
    exact hA
  rcases stepPlot_foldl_none host dir m.Archived hused with ⟨e2, heq, hH, hP, hAv, hC, hF⟩
  refine ⟨e2, ?_, hH, hP, hAv, hC, hF⟩
  rw [hraw, store_foldl_plot_lookup_other (dirKey host dir) l2 _ hl2]
  show mapLookup (accArchivedPlotDirs (seedPlotDirs (l1.foldl plotHostStep []) host m)
    host m.Archived) (dirKey host dir) = some e2
  rw [accArchivedPlotDirs_lookup_at host dir m.Archived, hseed]
  exact heq

theorem orphanDest_lookup (store : List (String × Msg)) (host : String) (m : Msg) (dir : String)
    (hnd : (store.map Prod.fst).Nodup)
    (hmem : (host, m) ∈ store)
    (hnew : ∀ hm ∈ store, ∀ d ∈ destTouchedDirs hm.2,
      dirKey hm.1 d = dirKey host dir → hm.1 = host ∧ d = dir)
    (horph : dir ∉ m.TargetDirs.map Prod.fst)
    (hused : ∃ p ∈ m.Archived, p.TargetDir = dir) :
    ∃ e, mapLookup (rawDestDirs store) (dirKey host dir) = some e ∧
      e.Host = host ∧ e.DestDir = dir ∧ e.AvailableBytes = maxUint64 ∧
      e.Count = countFinishedDest dir m.Archived ∧
      e.Failed = countFailedDest dir m.Archived := by
  rcases List.append_of_mem hmem with ⟨l1, l2, rfl⟩
  have hmap : ((l1 ++ (host, m) :: l2).map Prod.fst) =
      l1.map Prod.fst ++ host :: l2.map Prod.fst := by
    simp
  rw [hmap] at hnd
  rcases List.nodup_append.mp hnd with ⟨hnd1, hnd2, hdisj⟩
  have hostL2 : host ∉ l2.map Prod.fst := (List.nodup_cons.mp hnd2).1
  have hostL1 : host ∉ l1.map Prod.fst := fun hh => hdisj hh (List.mem_cons_self _ _)
  have hcond : ∀ hm ∈ l1 ++ (host, m) :: l2, hm.1 ≠ host →
      (∀ d ∈ hm.2.TargetDirs, dirKey hm.1 d.1 ≠ dirKey host dir) ∧
      (∀ p ∈ hm.2.Archived, dirKey hm.1 p.TargetDir ≠ dirKey host dir) := by
    intro hm hhm hne
    constructor
    · intro d hd heq
      exact hne (hnew hm hhm d.1 (by
        unfold destTouchedDirs
        exact List.mem_append_left _ (List.mem_map_of_mem Prod.fst hd)) heq).1
    · intro p hp heq
      exact hne (hnew hm hhm p.TargetDir (by
        unfold destTouchedDirs
        exact List.mem_append_right _ (List.mem_map_of_mem ActivePlot.TargetDir hp)) heq).1
  have hl1 : ∀ hm ∈ l1, (∀ d ∈ hm.2.TargetDirs, dirKey hm.1 d.1 ≠ dirKey host dir) ∧
      (∀ p ∈ hm.2.Archived, dirKey hm.1 p.TargetDir ≠ dirKey host dir) := by
    intro hm hhm
    refine hcond hm (List.mem_append_left _ hhm) ?_
    intro hh
    exact hostL1 (hh ▸ List.mem_map_of_mem Prod.fst hhm)
  have hl2 : ∀ hm ∈ l2, (∀ d ∈ hm.2.TargetDirs, dirKey hm.1 d.1 ≠ dirKey host dir) ∧
      (∀ p ∈ hm.2.Archived, dirKey hm.1 p.TargetDir ≠ dirKey host dir) := by
    intro hm hhm
    refine hcond hm (List.mem_append_right _ (List.mem_cons_of_mem _ hhm)) ?_
    intro hh
    exact hostL2 (hh ▸ List.mem_map_of_mem Prod.fst hhm)
  have hraw : rawDestDirs (l1 ++ (host, m) :: l2) =
      l2.foldl destHostStep (destHostStep (l1.foldl destHostStep []) (host, m)) := by
    unfold rawDestDirs
    rw [List.foldl_append, List.foldl_cons]
  have hA : mapLookup (l1.foldl destHostStep []) (dirKey host dir) = none :=
    (store_foldl_dest_lookup_other (dirKey host dir) l1 [] hl1).trans rfl
  have hseedcond : ∀ d ∈ m.TargetDirs, dirKey host d.1 ≠ dirKey host dir := by
    intro d hd heq
    exact horph (dirKey_right_inj host d.1 dir heq ▸ List.mem_map_of_mem Prod.fst hd)
  have hseed : mapLookup (seedDestDirs (l1.foldl destHostStep []) host m)
      (dirKey host dir) = none := by
    rw [seedDestDirs_lookup_other _ _ _ _ hseedcond]
    exact hA
  rcases stepDest_foldl_none host dir m.Archived hused with ⟨e2, heq, hH, hP, hAv, hC, hF⟩
  refine ⟨e2, ?_, hH, hP, hAv, hC, hF⟩
  rw [hraw, store_foldl_dest_lookup_other (dirKey host dir) l2 _ hl2]
  show mapLookup (accArchivedDestDirs (seedDestDirs (l1.foldl destHostStep []) host m)
    host m.Archived) (dirKey host dir) = some e2
  rw [accArchivedDestDirs_lookup_at host dir m.Archived, hseed]
  exact heq

/-- C4: a (host, directory) pair used only by archived jobs and not advertised
in the host's directory map still yields an aggregated entry, carrying the
maximum-uint64 capacity sentinel, a success count equal to the host's archived
Finished jobs using the directory, and a failure count equal to its archived
Errored or Killed jobs using it; this holds for the source-directory table
(plot dirs) and the destination-directory table (dest dirs) alike.  The key
hypotheses rule out a key collision of the host + "||" + dir encoding. -/
theorem orphan_directory_entry (store : List (String × Msg)) (host : String) (m : Msg)
    (dir : String) (hnd : (store.map Prod.fst).Nodup) (hmem : (host, m) ∈ store) :
    ((∀ hm ∈ store, ∀ d ∈ plotTouchedDirs hm.2,
        dirKey hm.1 d = dirKey host dir → hm.1 = host ∧ d = dir) →
      dir ∉ m.TempDirs.map Prod.fst → (∃ p ∈ m.Archived, p.PlotDir = dir) →
      ∃ e, mapLookup (makePlotDirsData store) (dirKey host dir) = some e ∧
        e.Host = host ∧ e.PlotDir = dir ∧ e.AvailableBytes = maxUint64 ∧
        e.Count = countFinishedPlot dir m.Archived ∧
        e.Failed = countFailedPlot dir m.Archived) ∧
    ((∀ hm ∈ store, ∀ d ∈ destTouchedDirs hm.2,
        dirKey hm.1 d = dirKey host dir → hm.1 = host ∧ d = dir) →
      dir ∉ m.TargetDirs.map Prod.fst → (∃ p ∈ m.Archived, p.TargetDir = dir) →
      ∃ e, mapLookup (makeDestDirsData store) (dirKey host dir) = some e ∧
        e.Host = host ∧ e.DestDir = dir ∧ e.AvailableBytes = maxUint64 ∧
        e.Count = countFinishedDest dir m.Archived ∧
        e.Failed = countFailedDest dir m.Archived) := by
  constructor
  · intro hnew horph hused
    rcases orphanPlot_lookup store host m dir hnd hmem hnew horph hused with
      ⟨r, hr, hH, hP, hA, hC, hF⟩
    refine ⟨finalizePlotDir r, ?_, ?_, ?_, ?_, ?_, ?_⟩
    · rw [show makePlotDirsData store =
        (rawPlotDirs store).map (fun kv => (kv.1, finalizePlotDir kv.2)) from rfl,
        mapLookup_map_value, hr]
      rfl
    · rw [(finalizePlotDir_fields r).1, hH]
    · rw [(finalizePlotDir_fields r).2.1, hP]
    · rw [(finalizePlotDir_fields r).2.2.1, hA]
    · rw [finalizePlotDir_Count r, hC]
    · rw [(finalizePlotDir_fields r).2.2.2, hF]
  · intro hnew horph hused
    rcases orphanDest_lookup store host m dir hnd hmem hnew horph hused with
      ⟨r, hr, hH, hP, hA, hC, hF⟩
    refine ⟨finalizeDestDir r, ?_, ?_, ?_, ?_, ?_, ?_⟩
    · rw [show makeDestDirsData store =
        (rawDestDirs store).map (fun kv => (kv.1, finalizeDestDir kv.2)) from rfl,
        mapLookup_map_value, hr]
      rfl
    · rw [(finalizeDestDir_fields r).1, hH]
    · rw [(finalizeDestDir_fields r).2.1, hP]
    · rw [(finalizeDestDir_fields r).2.2.1, hA]
    · rw [finalizeDestDir_Count r, hC]
    · rw [(finalizeDestDir_fields r).2.2.2, hF]

/-- C4 witness: one host whose single archived Finished job names a plot
directory the host no longer advertises; the aggregated source-dir table still
holds an entry for it with the capacity sentinel and counts 1 and 0. -/
theorem orphan_directory_entry_witness :
    ∃ e : plotDirData,
      mapLookup (makePlotDirsData
        [("h", ⟨"", [], [⟨"job-a", PlotState.Finished, 4, [0, 1, 3, 6, 10], "pd", "td", 100, []⟩],
          [], [("e", 7)]⟩)]) (dirKey "h" "pd") = some e ∧
      e.Host = "h" ∧ e.PlotDir = "pd" ∧ e.AvailableBytes = maxUint64 ∧
      e.Count = countFinishedPlot "pd"
        [⟨"job-a", PlotState.Finished, 4, [0, 1, 3, 6, 10], "pd", "td", 100, []⟩] ∧
      e.Failed = countFailedPlot "pd"
        [⟨"job-a", PlotState.Finished, 4, [0, 1, 3, 6, 10], "pd", "td", 100, []⟩] :=
  (orphan_directory_entry
    [("h", ⟨"", [], [⟨"job-a", PlotState.Finished, 4, [0, 1, 3, 6, 10], "pd", "td", 100, []⟩],
      [], [("e", 7)]⟩)]
    "h" ⟨"", [], [⟨"job-a", PlotState.Finished, 4, [0, 1, 3, 6, 10], "pd", "td", 100, []⟩],
      [], [("e", 7)]⟩ "pd" (by decide) (by decide)).1
    (by decide) (by decide) (by decide)

/-! Client state and the poll and selection handlers (Client.checkServer,
Client.selectActivePlot, Client.selectArchivedPlot and the draw functions;
client.go lines 125-156, 325-361, 438-456, 521-539, 592-627, 629-679).  The
tview surface is embedded as data: the log panel is a title, a text and a
scrolled-to-end flag; a selected-row style is reverse video plus an optional
bold or dim attribute. -/

/-- SelStyle embeds the tcell attribute sets the client uses for a table's
selected style. -/
inductive SelStyle : Type
  | Reverse
  | ReverseBold
  | ReverseDim
deriving DecidableEq

/-- LogBox embeds the log detail panel (a tview.TextView): its title, its
text, and whether ScrollToEnd was applied. -/
structure LogBox : Type where
  title : String
  text : String
  atEnd : Bool
deriving DecidableEq

/-- activePlotsData embeds the active-plots row struct; times are integer
timestamps and Duration is the wall-clock now minus the start time. -/
structure activePlotsData : Type where
  Host : String
  PlotId : String
  Status : PlotState
  Phase : Int
  Progress : Int
  StartTime : Int
  Duration : Int
  PlotDir : String
  DestDir : String
deriving DecidableEq

/-- makeActivePlotsData embeds Client.makeActivePlotsData. -/
def makeActivePlotsData (now : Int) (host : String) (p : ActivePlot) : activePlotsData :=
  { Host := host
    PlotId := p.Id
    Status := p.State
    Phase := p.getCurrentPhase
    Progress := p.getProgress
    StartTime := p.getPhaseTime 0
    Duration := now - p.getPhaseTime 0
    PlotDir := p.PlotDir
    DestDir := p.TargetDir }

/-- archivedPlotData embeds the archived-plots row struct. -/
structure archivedPlotData : Type where
  Host : String
  PlotId : String
  Status : PlotState
  Phase : Int
  StartTime : Int
  EndTime : Int
  Duration : Int
  PlotDir : String
  DestDir : String
deriving DecidableEq

/-- makeArchivedPlotData embeds Client.makeArchivedPlotData. -/
def makeArchivedPlotData (host : String) (p : ActivePlot) : archivedPlotData :=
  { Host := host
    PlotId := p.Id
    Status := p.State
    Phase := p.getCurrentPhase
    StartTime := p.getPhaseTime 0
    EndTime := p.getPhaseTime 4
    Duration := p.getPhaseTime 4 - p.getPhaseTime 0
    PlotDir := p.PlotDir
    DestDir := p.TargetDir }

/-- hostsData embeds the hosts row struct. -/
structure hostsData : Type where
  Host : String
  Status : String
deriving DecidableEq

/-- makeHostsData embeds Client.makeHostsData. -/
def makeHostsData (host : String) (m : Msg) : hostsData :=
  { Host := host, Status := m.Status }

/-- ClientState embeds the Client fields the poll and selection handlers
read or write, with each sorted table as a keyed row map plus its title. -/
structure ClientState : Type where
  msg : List (String × Msg)
  activeLogs : List (String × List String)
  archivedLogs : List (String × List String)
  logPlotId : String
  logBox : LogBox
  activePlotsTable : List (String × activePlotsData)
  plotDirsTable : List (String × plotDirData)
  destDirsTable : List (String × destDirData)
  archivedPlotsTable : List (String × archivedPlotData)
  hostsTable : List (String × hostsData)
  activePlotsTitle : String
  plotDirsTitle : String
  destDirsTitle : String
  archivedPlotsTitle : String
  hostsTitle : String
  activeSelStyle : SelStyle
  archivedSelStyle : SelStyle
deriving DecidableEq

/-- logTitle is the log panel title derived from a plot id. -/
def logTitle (id : String) : String := " Log (" ++ shortenPlotId id ++ ") "

/-- drawActivePlotsTable embeds Client.drawActivePlotsTable: rebuild the
active-log map from every host's active jobs, reconcile the rows keyed by
plot id, and set the counted title. -/
def drawActivePlotsTable (now : Int) (s : ClientState) : ClientState :=
  let pairs := s.msg.foldl (fun acc hm => acc ++ hm.2.Actives.map (fun p => (hm.1, p))) []
  { s with
    activeLogs := pairs.foldl (fun lg hp => mapInsert lg hp.2.Id hp.2.Tail) []
    activePlotsTable := reconcile s.activePlotsTable
      (pairs.map (fun hp => (hp.2.Id, makeActivePlotsData now hp.1 hp.2)))
    activePlotsTitle := " Active Plots [" ++ toString pairs.length ++ "] " }

/-- drawPlotDirsTable embeds Client.drawPlotDirsTable. -/
def drawPlotDirsTable (s : ClientState) : ClientState :=
  let plotDirs := makePlotDirsData s.msg
  { s with
    plotDirsTable := reconcile s.plotDirsTable plotDirs
    plotDirsTitle := " Plot Directories [" ++ toString plotDirs.length ++ "] " }

/-- drawDestDirsTable embeds Client.drawDestDirsTable. -/
def drawDestDirsTable (s : ClientState) : ClientState :=
  let destDirs := makeDestDirsData s.msg
  { s with
    destDirsTable := reconcile s.destDirsTable destDirs
    destDirsTitle := " Dest Directories [" ++ toString destDirs.length ++ "] " }

/-- drawArchivedPlotsTable embeds Client.drawArchivedPlotsTable: rebuild the
archived-log map, reconcile the rows, and set the success/failure title. -/
def drawArchivedPlotsTable (s : ClientState) : ClientState :=
  let pairs := s.msg.foldl (fun acc hm => acc ++ hm.2.Archived.map (fun p => (hm.1, p))) []
  let success := (pairs.filter (fun hp => decide (hp.2.State = PlotState.Finished))).length
  let failed := (pairs.filter (fun hp =>
    decide (hp.2.State = PlotState.Killed ∨ hp.2.State = PlotState.Errored))).length
  { s with
    archivedLogs := pairs.foldl (fun lg hp => mapInsert lg hp.2.Id hp.2.Tail) []
    archivedPlotsTable := reconcile s.archivedPlotsTable
      (pairs.map (fun hp => (hp.2.Id, makeArchivedPlotData hp.1 hp.2)))
    archivedPlotsTitle := if 0 < failed then
        " Archived Plots [" ++ toString success ++ " (" ++ toString failed ++ " failed)] "
      else " Archived Plots [" ++ toString success ++ "] " }

/-- drawHostsTable embeds Client.drawHostsTable. -/
def drawHostsTable (s : ClientState) : ClientState :=
  { s with
    hostsTable := reconcile s.hostsTable (s.msg.map (fun hm => (hm.1, makeHostsData hm.1 hm.2)))
    hostsTitle := " Hosts [" ++ toString s.msg.length ++ "] " }

/-- updateLogPanel embeds the tail of checkServer's success path: look the
selected id up in the active-log map, fall back to the archived-log map, and
only on a hit rewrite the log panel and scroll it to the end. -/
def updateLogPanel (s : ClientState) : ClientState :=
  match mapLookup s.activeLogs s.logPlotId with
  | some lg => { s with logBox := ⟨logTitle s.logPlotId, String.join lg, true⟩ }
  | none =>
    match mapLookup s.archivedLogs s.logPlotId with
    | some lg => { s with logBox := ⟨logTitle s.logPlotId, String.join lg, true⟩ }
    | none => s

/-- redrawTables is the draw sequence of checkServer's success path. -/
def redrawTables (now : Int) (s : ClientState) : ClientState :=
  drawHostsTable (drawArchivedPlotsTable (drawDestDirsTable
    (drawPlotDirsTable (drawActivePlotsTable now s))))

/-- checkServer embeds Client.checkServer's queued update: on a failed fetch,
create the host's record when missing and overwrite only its status, then
redraw the hosts table; on success, replace the record wholesale, redraw all
tables (rebuilding both log maps), and refresh the log panel. -/
def checkServer (now : Int) (s : ClientState) (host : String) (res : Except String Msg) :
    ClientState :=
  match res with
  | .error err =>
    drawHostsTable
      { s with msg :=
          mapInsert s.msg host ({ (mapLookup s.msg host).getD emptyMsg with Status := err }) }
  | .ok m =>
    updateLogPanel (redrawTables now { s with msg := mapInsert s.msg host m })

/-- selectActivePlot embeds Client.selectActivePlot: record the selection,
dim the archived table's selection style, bolden the active one, retitle the
panel, and show the active log tail or clear the text when there is none. -/
def selectActivePlot (s : ClientState) (key : String) : ClientState :=
  match mapLookup s.activeLogs key with
  | some lg =>
    { s with
      logPlotId := key
      archivedSelStyle := SelStyle.ReverseDim
      activeSelStyle := SelStyle.ReverseBold
      logBox := ⟨logTitle key, String.join lg, true⟩ }
  | none =>
    { s with
      logPlotId := key
      archivedSelStyle := SelStyle.ReverseDim
      activeSelStyle := SelStyle.ReverseBold
      logBox := ⟨logTitle key, "", s.logBox.atEnd⟩ }

/-- selectArchivedPlot embeds Client.selectArchivedPlot, resolving the log
tail from the archived-log map. -/
def selectArchivedPlot (s : ClientState) (key : String) : ClientState :=
  match mapLookup s.archivedLogs key with
  | some lg =>
    { s with
      logPlotId := key
      activeSelStyle := SelStyle.ReverseDim
      archivedSelStyle := SelStyle.ReverseBold
      logBox := ⟨logTitle key, String.join lg, true⟩ }
  | none =>
    { s with
      logPlotId := key
      activeSelStyle := SelStyle.ReverseDim
      archivedSelStyle := SelStyle.ReverseBold
      logBox := ⟨logTitle key, "", s.logBox.atEnd⟩ }

/-- Modelled from the spec: the server component that produces wire snapshots
is not under src/; per the spec the snapshot status field is store-owned
("error text or empty", written on poll outcomes by the store), so a
successfully decoded wire snapshot carries an empty status. -/
def wireSnapshot (m : Msg) : Prop := m.Status = ""

/-- baseState is a small concrete client state used by the witnesses. -/
def baseState : ClientState :=
  { msg := [("a", emptyMsg)]
    activeLogs := []
    archivedLogs := []
    logPlotId := ""
    logBox := ⟨" Log ", "", false⟩
    activePlotsTable := []
    plotDirsTable := []
    destDirsTable := []
    archivedPlotsTable := []
    hostsTable := []
    activePlotsTitle := ""
    plotDirsTitle := ""
    destDirsTitle := ""
    archivedPlotsTitle := ""
    hostsTitle := ""
    activeSelStyle := SelStyle.Reverse
    archivedSelStyle := SelStyle.Reverse }

theorem updateLogPanel_msg (t : ClientState) : (updateLogPanel t).msg = t.msg := by
  unfold updateLogPanel
  cases h1 : mapLookup t.activeLogs t.logPlotId with
  | some lg => rfl
  | none =>
    cases h2 : mapLookup t.archivedLogs t.logPlotId with
    | some lg => rfl
    | none => rfl

theorem updateLogPanel_activeLogs (t : ClientState) :
    (updateLogPanel t).activeLogs = t.activeLogs := by
  unfold updateLogPanel
  cases h1 : mapLookup t.activeLogs t.logPlotId with
  | some lg => rfl
  | none =>
    cases h2 : mapLookup t.archivedLogs t.logPlotId with
    | some lg => rfl
    | none => rfl

theorem updateLogPanel_archivedLogs (t : ClientState) :
    (updateLogPanel t).archivedLogs = t.archivedLogs := by
  unfold updateLogPanel
  cases h1 : mapLookup t.activeLogs t.logPlotId with
  | some lg => rfl
  | none =>
    cases h2 : mapLookup t.archivedLogs t.logPlotId with
    | some lg => rfl
    | none => rfl

theorem updateLogPanel_spec (t : ClientState) :
    (mapLookup t.activeLogs t.logPlotId = none →
      mapLookup t.archivedLogs t.logPlotId = none →
      (updateLogPanel t).logBox = t.logBox) ∧
    (∀ lg, mapLookup t.activeLogs t.logPlotId = some lg →
      (updateLogPanel t).logBox = ⟨logTitle t.logPlotId, String.join lg, true⟩) ∧
    (∀ lg, mapLookup t.activeLogs t.logPlotId = none →
      mapLookup t.archivedLogs t.logPlotId = some lg →
      (updateLogPanel t).logBox = ⟨logTitle t.logPlotId, String.join lg, true⟩) := by
  unfold updateLogPanel
  cases h1 : mapLookup t.activeLogs t.logPlotId with
  | some lg1 =>
    refine ⟨?_, ?_, ?_⟩
    · intro hn
      exact absurd hn (Option.some_ne_none lg1)
    · intro lg hlg
      have hh : lg1 = lg := Option.some.inj hlg
      rw [← hh]
    · intro lg hn
      exact absurd hn (Option.some_ne_none lg1)
  | none =>
    cases h2 : mapLookup t.archivedLogs t.logPlotId with
    | some lg2 =>
      refine ⟨?_, ?_, ?_⟩
      · intro _ hn
        exact absurd hn (Option.some_ne_none lg2)
      · intro lg hlg
        simp at hlg
      · intro lg _ hlg
        have hh : lg2 = lg := Option.some.inj hlg
        rw [← hh]
    | none =>
      refine ⟨?_, ?_, ?_⟩
      · intro _ _
        rfl
      · intro lg hlg
        simp at hlg
      · intro lg _ hlg
        simp at hlg

/-- C1: a failed poll of host h creates h's record when it is missing and
overwrites only its status with the error text: the job lists and the
directory maps keep exactly their prior values (empty when the host never
succeeded), and every other host's record is untouched. -/
theorem failed_poll_updates_only_status (now : Int) (s : ClientState) (host err : String) :
    (∃ m', mapLookup (checkServer now s host (Except.error err)).msg host = some m' ∧
      m'.Status = err ∧
      m'.Actives = ((mapLookup s.msg host).getD emptyMsg).Actives ∧
      m'.Archived = ((mapLookup s.msg host).getD emptyMsg).Archived ∧
      m'.TempDirs = ((mapLookup s.msg host).getD emptyMsg).TempDirs ∧
      m'.TargetDirs = ((mapLookup s.msg host).getD emptyMsg).TargetDirs ∧
      (mapLookup s.msg host = none → m' = { emptyMsg with Status := err })) ∧
    (∀ h, h ≠ host →
      mapLookup (checkServer now s host (Except.error err)).msg h = mapLookup s.msg h) := by
  have hmsg : (checkServer now s host (Except.error err)).msg =
      mapInsert s.msg host ({ (mapLookup s.msg host).getD emptyMsg with Status := err }) := rfl
  constructor
  · refine ⟨{ (mapLookup s.msg host).getD emptyMsg with Status := err },
      ?_, rfl, rfl, rfl, rfl, rfl, ?_⟩
    · rw [hmsg]
      exact mapLookup_mapInsert_self _ _ _
    · intro hn
      rw [hn]
      rfl
  · intro h hne
    rw [hmsg]
    exact mapLookup_mapInsert_ne _ _ _ _ hne

/-- C1 witness: a failed poll of an unknown host b leaves the known host a's
record untouched. -/
theorem failed_poll_witness :
    mapLookup (checkServer 0 baseState "b" (Except.error "boom")).msg "a" =
      mapLookup baseState.msg "a" :=
  (failed_poll_updates_only_status 0 baseState "b" "boom").2 "a" (by decide)

/-- C2: a successful poll replaces the host's record wholesale with the
decoded snapshot, and since a wire snapshot carries an empty status the stored
status ends up cleared whatever the previous record held. -/
theorem successful_poll_replaces_record (now : Int) (s : ClientState) (host : String) (m : Msg)
    (hw : wireSnapshot m) :
    mapLookup (checkServer now s host (Except.ok m)).msg host = some m ∧
    ∃ m', mapLookup (checkServer now s host (Except.ok m)).msg host = some m' ∧
      m'.Status = "" := by
  have hmsg : (checkServer now s host (Except.ok m)).msg = mapInsert s.msg host m := by
    show (updateLogPanel (redrawTables now { s with msg := mapInsert s.msg host m })).msg =
      mapInsert s.msg host m
    rw [updateLogPanel_msg]
    rfl
  constructor
  · rw [hmsg]
    exact mapLookup_mapInsert_self _ _ _
  · refine ⟨m, ?_, hw⟩
    rw [hmsg]
    exact mapLookup_mapInsert_self _ _ _

/-- C2 witness: polling host a successfully with an empty snapshot stores that
snapshot verbatim. -/
theorem successful_poll_witness :
    mapLookup (checkServer 0 baseState "a" (Except.ok emptyMsg)).msg "a" = some emptyMsg :=
  (successful_poll_replaces_record 0 baseState "a" emptyMsg rfl).1

/-- C9: selecting a key with no active log tail clears the detail text and
changes nothing besides the recorded selection, the selection styles and the
panel; and selecting a key in the archived table resolves its tail from the
archived-log map. -/
theorem select_missing_log_clears_panel (s : ClientState) (key : String) :
    (mapLookup s.activeLogs key = none →
      (selectActivePlot s key).logBox.text = "" ∧
      (selectActivePlot s key).logPlotId = key ∧
      (selectActivePlot s key).logBox.title = logTitle key ∧
      (selectActivePlot s key).activeSelStyle = SelStyle.ReverseBold ∧
      (selectActivePlot s key).archivedSelStyle = SelStyle.ReverseDim ∧
      (selectActivePlot s key).msg = s.msg ∧
      (selectActivePlot s key).activeLogs = s.activeLogs ∧
      (selectActivePlot s key).archivedLogs = s.archivedLogs ∧
      (selectActivePlot s key).activePlotsTable = s.activePlotsTable ∧
      (selectActivePlot s key).plotDirsTable = s.plotDirsTable ∧
      (selectActivePlot s key).destDirsTable = s.destDirsTable ∧
      (selectActivePlot s key).archivedPlotsTable = s.archivedPlotsTable ∧
      (selectActivePlot s key).hostsTable = s.hostsTable ∧
      (selectActivePlot s key).activePlotsTitle = s.activePlotsTitle ∧
      (selectActivePlot s key).plotDirsTitle = s.plotDirsTitle ∧
      (selectActivePlot s key).destDirsTitle = s.destDirsTitle ∧
      (selectActivePlot s key).archivedPlotsTitle = s.archivedPlotsTitle ∧
      (selectActivePlot s key).hostsTitle = s.hostsTitle) ∧
    (mapLookup s.archivedLogs key = none → (selectArchivedPlot s key).logBox.text = "") ∧
    (∀ lg, mapLookup s.archivedLogs key = some lg →
      (selectArchivedPlot s key).logBox.text = String.join lg ∧
      (selectArchivedPlot s key).logPlotId = key) := by
  refine ⟨?_, ?_, ?_⟩
  · intro h
    unfold selectActivePlot
    rw [h]
    exact ⟨rfl, rfl, rfl, rfl, rfl, rfl, rfl, rfl, rfl, rfl, rfl, rfl, rfl, rfl, rfl, rfl, rfl,
      rfl⟩
  · intro h
    unfold selectArchivedPlot
    rw [h]
  · intro lg h
    unfold selectArchivedPlot
    rw [h]
    exact ⟨rfl, rfl⟩

/-- C9 witness: selecting a key absent from the empty active-log map clears
the detail text. -/
theorem select_missing_log_witness :
    (selectActivePlot baseState "nokey").logBox.text = "" :=
  ((select_missing_log_clears_panel baseState "nokey").1 rfl).1

/-- C10: after a successful poll the log panel is rewritten only when the
selected id is found in the freshly rebuilt active-log map or, failing that,
the freshly rebuilt archived-log map; when it is in neither, the panel's
title and text are left exactly as they were. -/
theorem refresh_log_panel (now : Int) (s : ClientState) (host : String) (m : Msg) :
    (mapLookup (checkServer now s host (Except.ok m)).activeLogs s.logPlotId = none →
      mapLookup (checkServer now s host (Except.ok m)).archivedLogs s.logPlotId = none →
      (checkServer now s host (Except.ok m)).logBox.title = s.logBox.title ∧
      (checkServer now s host (Except.ok m)).logBox.text = s.logBox.text) ∧
    (∀ lg, mapLookup (checkServer now s host (Except.ok m)).activeLogs s.logPlotId = some lg →
      (checkServer now s host (Except.ok m)).logBox.text = String.join lg ∧
      (checkServer now s host (Except.ok m)).logBox.title = logTitle s.logPlotId) ∧
    (∀ lg, mapLookup (checkServer now s host (Except.ok m)).activeLogs s.logPlotId = none →
      mapLookup (checkServer now s host (Except.ok m)).archivedLogs s.logPlotId = some lg →
      (checkServer now s host (Except.ok m)).logBox.text = String.join lg ∧
      (checkServer now s host (Except.ok m)).logBox.title = logTitle s.logPlotId) := by
  rcases updateLogPanel_spec (redrawTables now { s with msg := mapInsert s.msg host m }) with
    ⟨hnone, hact, harch⟩
  have hAL : (checkServer now s host (Except.ok m)).activeLogs =
      (redrawTables now { s with msg := mapInsert s.msg host m }).activeLogs :=
    updateLogPanel_activeLogs _
  have hRL : (checkServer now s host (Except.ok m)).archivedLogs =
      (redrawTables now { s with msg := mapInsert s.msg host m }).archivedLogs :=
    updateLogPanel_archivedLogs _
  refine ⟨?_, ?_, ?_⟩
  · intro h1 h2
    rw [hAL] at h1
    rw [hRL] at h2
    have hb := hnone h1 h2
    exact ⟨congrArg LogBox.title hb, congrArg LogBox.text hb⟩
  · intro lg h1
    rw [hAL] at h1
    have hb := hact lg h1
    exact ⟨congrArg LogBox.text hb, congrArg LogBox.title hb⟩
  · intro lg h1 h2
    rw [hAL] at h1
    rw [hRL] at h2
    have hb := harch lg h1 h2
    exact ⟨congrArg LogBox.text hb, congrArg LogBox.title hb⟩

/-- C10 witness: refreshing with no job selected leaves the panel text
untouched. -/
theorem refresh_log_panel_witness :
    (checkServer 0 baseState "a" (Except.ok emptyMsg)).logBox.text = baseState.logBox.text :=
  ((refresh_log_panel 0 baseState "a" emptyMsg).1 (by decide) (by decide)).2

end Plotng
